import Mathlib

/-!
Shallow embedding of the Factor Computation & Outlier Detection Engine of the
crypto-analysis-tgbot repository (src/factors/indicators.py,
src/factors/calculator.py, src/config.py), together with theorems settling the
frozen claims about it.

Modelling conventions:
* Python floats are modelled as real numbers (`ℝ`); float `NaN`/`None` results
  are modelled as `none : Option ℝ` where the source checks for them.
* numpy arrays / pandas series are modelled as `List ℝ` (or `List (Option ℝ)`
  when the source produces NaN-padded arrays).
* Division by zero in ℝ gives 0; every division in the embedding is either
  guarded exactly as in the source or commented where the source relies on
  positive inputs.
-/

open scoped Classical

namespace CryptoFactors

/-! ### numpy / pandas list primitives -/

/-- Python slice `l[-k:]`; note that for `k = 0` the slice `l[-0:] = l[0:]` is
the whole list, exactly as in Python. -/
def pyLastSlice {α : Type} (l : List α) (k : ℕ) : List α :=
  if k = 0 then l else l.drop (l.length - k)

/-- Python slice `l[-k:]` for a strictly positive literal `k` (used where the
source slices with a constant); same as `pyLastSlice` for `k ≠ 0`. -/
def lastN {α : Type} (l : List α) (k : ℕ) : List α :=
  l.drop (l.length - k)

/-- Python indexing `l[-k]` (for `1 ≤ k ≤ l.length`); out of range gives the
default, which never happens under the guards of the source. -/
def negIdx {α : Type} (l : List α) (k : ℕ) (d : α) : α :=
  l.getD (l.length - k) d

/-- Last element (`l[-1]`), defaulting to 0; the sources only read it from
nonempty lists. -/
noncomputable def lastD (l : List ℝ) : ℝ :=
  l.getLastD 0

/-- numpy `np.diff`: consecutive differences. -/
noncomputable def diff (l : List ℝ) : List ℝ :=
  (l.tail.zip l).map fun p => p.1 - p.2

/-- numpy `np.mean` (mean of [] is NaN in numpy; here 0/0 = 0 — the sources
only take means of nonempty windows). -/
noncomputable def listMean (l : List ℝ) : ℝ :=
  l.sum / l.length

/-- numpy `np.var` / square of `np.std` with the default `ddof = 0`
(population variance). -/
noncomputable def popVar (l : List ℝ) : ℝ :=
  ((l.map fun x => (x - listMean l) ^ 2).sum) / l.length

/-- numpy `np.std` (population standard deviation, `ddof = 0`). -/
noncomputable def popStd (l : List ℝ) : ℝ :=
  Real.sqrt (popVar l)

/-- Sample variance (`ddof = 1`), as used by pandas `std`/numpy `cov`. -/
noncomputable def sampleVar (l : List ℝ) : ℝ :=
  ((l.map fun x => (x - listMean l) ^ 2).sum) / ((l.length : ℝ) - 1)

/-- pandas `Series.std()` / rolling std (`ddof = 1`). -/
noncomputable def sampleStd (l : List ℝ) : ℝ :=
  Real.sqrt (sampleVar l)

/-- numpy sample covariance `np.cov(x, y)[0, 1]` (default `ddof = 1`). -/
noncomputable def sampleCov (x y : List ℝ) : ℝ :=
  (((x.zip y).map fun p => (p.1 - listMean x) * (p.2 - listMean y)).sum) /
    ((x.length : ℝ) - 1)

/-- `(l < x).sum()` on a numpy array: how many entries are strictly below `x`. -/
noncomputable def countLt (l : List ℝ) (x : ℝ) : ℕ :=
  l.countP fun y => decide (y < x)

/-- Elementwise difference of two equal-length arrays. -/
noncomputable def arraySub (a b : List ℝ) : List ℝ :=
  List.zipWith (fun x y => x - y) a b

/-- pandas `ewm(adjust=False).mean()` recursion after the seed:
`y_t = (1 - α)·y_{t-1} + α·x_t`. -/
noncomputable def ewmGo (a : ℝ) (prev : ℝ) : List ℝ → List ℝ
  | [] => [prev]
  | x :: xs => prev :: ewmGo a ((1 - a) * prev + a * x) xs

/-- pandas `Series.ewm(alpha=a, adjust=False).mean()`, seeded from the first
value. -/
noncomputable def ewmAlpha (a : ℝ) : List ℝ → List ℝ
  | [] => []
  | x :: xs => ewmGo a x xs

theorem length_ewmGo (a prev : ℝ) (l : List ℝ) :
    (ewmGo a prev l).length = l.length + 1 := by
  induction l generalizing prev with
  | nil => rfl
  | cons x xs ih => simp [ewmGo, ih]

theorem length_ewmAlpha (a : ℝ) (l : List ℝ) :
    (ewmAlpha a l).length = l.length := by
  cases l with
  | nil => rfl
  | cons x xs => simp [ewmAlpha, length_ewmGo]

theorem ewmGo_nonneg {a prev : ℝ} {l : List ℝ} (ha0 : 0 ≤ a) (ha1 : a ≤ 1)
    (hp : 0 ≤ prev) (hl : ∀ x ∈ l, 0 ≤ x) :
    ∀ y ∈ ewmGo a prev l, 0 ≤ y := by
  induction l generalizing prev with
  | nil =>
    intro y hy
    simp [ewmGo] at hy
    simpa [hy] using hp
  | cons x xs ih =>
    intro y hy
    simp only [ewmGo, List.mem_cons] at hy
    rcases hy with rfl | hy
    · exact hp
    · refine ih ?_ (fun z hz => hl z (List.mem_cons_of_mem _ hz)) y hy
      have hx : 0 ≤ x := hl x (List.mem_cons_self _ _)
      have h1a : 0 ≤ 1 - a := by linarith
      positivity

theorem ewmAlpha_nonneg {a : ℝ} {l : List ℝ} (ha0 : 0 ≤ a) (ha1 : a ≤ 1)
    (hl : ∀ x ∈ l, 0 ≤ x) :
    ∀ y ∈ ewmAlpha a l, 0 ≤ y := by
  cases l with
  | nil => intro y hy; simp [ewmAlpha] at hy
  | cons x xs =>
    exact ewmGo_nonneg ha0 ha1 (hl x (List.mem_cons_self _ _))
      (fun z hz => hl z (List.mem_cons_of_mem _ hz))

theorem ewmGo_zero {a : ℝ} {l : List ℝ} (hl : ∀ x ∈ l, x = 0) :
    ∀ y ∈ ewmGo a 0 l, y = 0 := by
  induction l with
  | nil => intro y hy; simpa [ewmGo] using hy
  | cons x xs ih =>
    intro y hy
    have hx : x = 0 := hl x (List.mem_cons_self _ _)
    simp only [ewmGo, hx, mul_zero, add_zero, List.mem_cons] at hy
    rcases hy with rfl | hy
    · rfl
    · exact ih (fun z hz => hl z (List.mem_cons_of_mem _ hz)) y hy

theorem ewmAlpha_zero {a : ℝ} {l : List ℝ} (hl : ∀ x ∈ l, x = 0) :
    ∀ y ∈ ewmAlpha a l, y = 0 := by
  cases l with
  | nil => intro y hy; simp [ewmAlpha] at hy
  | cons x xs =>
    have hx : x = 0 := hl x (List.mem_cons_self _ _)
    rw [ewmAlpha, hx]
    exact ewmGo_zero fun z hz => hl z (List.mem_cons_of_mem _ hz)

/-! ### Indicator library (src/factors/indicators.py) -/

/-- `calculate_ema`: pandas ewm with `span`, i.e. `α = 2/(span+1)`,
`adjust=False`. -/
noncomputable def calculate_ema (data : List ℝ) (span : ℕ) : List ℝ :=
  ewmAlpha (2 / ((span : ℝ) + 1)) data

/-- `calculate_macd`: `none` models the all-NaN triple returned when
`len(prices) < slow_period`; otherwise no entry of the three arrays is NaN. -/
noncomputable def calculate_macd (prices : List ℝ)
    (fast_period slow_period signal_period : ℕ) :
    Option (List ℝ × List ℝ × List ℝ) :=
  if prices.length < slow_period then none
  else
    let fast_ema := calculate_ema prices fast_period
    let slow_ema := calculate_ema prices slow_period
    let macd_line := arraySub fast_ema slow_ema
    let signal_line := calculate_ema macd_line signal_period
    some (macd_line, signal_line, arraySub macd_line signal_line)

/-- Combine two NaN-padded arrays elementwise. -/
noncomputable def zipOpt (f : ℝ → ℝ → ℝ) :
    List (Option ℝ) → List (Option ℝ) → List (Option ℝ)
  | a :: as', b :: bs => (match a, b with
      | some x, some y => some (f x y)
      | _, _ => none) :: zipOpt f as' bs
  | _, _ => []

/-- pandas `rolling(window=period).mean()`: NaN (here `none`) until a full
window is available. -/
noncomputable def rollingMean (prices : List ℝ) (period : ℕ) : List (Option ℝ) :=
  (List.range prices.length).map fun i =>
    if i + 1 < period then none
    else some (listMean ((prices.take (i + 1)).drop (i + 1 - period)))

/-- pandas `rolling(window=period).std()` (sample std, `ddof = 1`). -/
noncomputable def rollingStd (prices : List ℝ) (period : ℕ) : List (Option ℝ) :=
  (List.range prices.length).map fun i =>
    if i + 1 < period then none
    else some (sampleStd ((prices.take (i + 1)).drop (i + 1 - period)))

/-- `calculate_bollinger_bands`; entries are `none` exactly where the source
arrays hold NaN. -/
noncomputable def calculate_bollinger_bands (prices : List ℝ) (period : ℕ)
    (num_std : ℝ) : List (Option ℝ) × List (Option ℝ) × List (Option ℝ) :=
  if prices.length < period then
    (prices.map fun _ => none, prices.map fun _ => none, prices.map fun _ => none)
  else
    let middle_band := rollingMean prices period
    let std_dev := rollingStd prices period
    (zipOpt (fun m s => m + s * num_std) middle_band std_dev,
     middle_band,
     zipOpt (fun m s => m - s * num_std) middle_band std_dev)

/-- True range after the first row: `max(high-low, |high-prevClose|,
|low-prevClose|)`. -/
noncomputable def trueRangeAux : List ℝ → List ℝ → List ℝ → ℝ → List ℝ
  | h :: hs, l :: ls, c :: cs, prevC =>
      max (h - l) (max |h - prevC| |l - prevC|) :: trueRangeAux hs ls cs c
  | _, _, _, _ => []

/-- True range array; the source zeroes `tr2[0]`/`tr3[0]` (the rolled previous
close is invalid there), giving `tr[0] = max(high-low, max(0, 0))`. -/
noncomputable def trueRange : List ℝ → List ℝ → List ℝ → List ℝ
  | h :: hs, l :: ls, c :: cs =>
      max (h - l) (max 0 0) :: trueRangeAux hs ls cs c
  | _, _, _ => []

/-- `calculate_atr`; `none` models the all-NaN array returned when
`len(close) < period + 1`. -/
noncomputable def calculate_atr (high low close : List ℝ) (period : ℕ) :
    Option (List ℝ) :=
  if close.length < period + 1 then none
  else some (ewmAlpha (1 / (period : ℝ)) (trueRange high low close))

/-- Positive parts of the price deltas (`np.where(deltas > 0, deltas, 0)`). -/
noncomputable def rsiGains (prices : List ℝ) : List ℝ :=
  (diff prices).map fun d => if 0 < d then d else 0

/-- Negative parts of the price deltas (`np.where(deltas < 0, -deltas, 0)`). -/
noncomputable def rsiLosses (prices : List ℝ) : List ℝ :=
  (diff prices).map fun d => if d < 0 then -d else 0

/-- Wilder-smoothed average gain (`ewm(alpha=1/period, adjust=False)`). -/
noncomputable def rsiAvgGain (prices : List ℝ) (period : ℕ) : List ℝ :=
  ewmAlpha (1 / (period : ℝ)) (rsiGains prices)

/-- Wilder-smoothed average loss. -/
noncomputable def rsiAvgLoss (prices : List ℝ) (period : ℕ) : List ℝ :=
  ewmAlpha (1 / (period : ℝ)) (rsiLosses prices)

/-- Elementwise RSI value from smoothed gain/loss: the source computes
`rs = avg_gain/avg_loss` (0 where `avg_loss == 0`), `rsi = 100 - 100/(1+rs)`
and then overwrites `rsi[avg_loss == 0] = 100`. -/
noncomputable def rsiCombine : List ℝ → List ℝ → List (Option ℝ)
  | g :: gs, l :: ls =>
      some (if l = 0 then 100 else 100 - 100 / (1 + g / l)) :: rsiCombine gs ls
  | _, _ => []

/-- `calculate_rsi`; the leading `none` models the NaN inserted for the first
element lost by `np.diff`, and the all-`none` list models the all-NaN array
returned when `len(prices) < period + 1`. -/
noncomputable def calculate_rsi (prices : List ℝ) (period : ℕ) :
    List (Option ℝ) :=
  if prices.length < period + 1 then prices.map fun _ => none
  else none :: rsiCombine (rsiAvgGain prices period) (rsiAvgLoss prices period)

/-- `calculate_ema_crossover`; `(none, 0)` models the pair of all-NaN arrays
with signal 0 returned when `len(prices) < slow_period`. The NaN check on the
latest EMAs never triggers otherwise. -/
noncomputable def calculate_ema_crossover (prices : List ℝ)
    (fast_period slow_period : ℕ) : Option (List ℝ × List ℝ) × ℤ :=
  if prices.length < slow_period then (none, 0)
  else
    let fast_ema := calculate_ema prices fast_period
    let slow_ema := calculate_ema prices slow_period
    (some (fast_ema, slow_ema),
      if lastD slow_ema < lastD fast_ema then 1
      else if lastD fast_ema < lastD slow_ema then -1
      else 0)

/-! ### Data model (src/config.py and the candle frames handed to the
calculator) -/

/-- One OHLCV candle row; `open_interest` is the optional extra column
(`none` models NaN in the column). The `open` price is named `open_price`
(`open` is a Lean keyword). -/
structure Candle where
  timestamp : ℤ
  open_price : ℝ
  high : ℝ
  low : ℝ
  close : ℝ
  volume : ℝ
  open_interest : Option ℝ

/-- `FactorWeights` from src/config.py (defaults 0.25 / 0.25 / 0.3 / 0.2). -/
structure FactorWeights where
  momentum : ℝ
  mean_reversion : ℝ
  carry : ℝ
  volume : ℝ

/-- `Thresholds` from src/config.py (defaults: z 2.0, top/bottom 10). -/
structure Thresholds where
  outlier_z_score : ℝ
  top_n_outliers : ℕ
  bottom_n_outliers : ℕ

/-- `df.sort_values("timestamp")`: a stable sort by timestamp. -/
noncomputable def sortCandles (candles : List Candle) : List Candle :=
  List.insertionSort (fun a b => a.timestamp ≤ b.timestamp) candles

theorem length_sortCandles (candles : List Candle) :
    (sortCandles candles).length = candles.length :=
  List.length_insertionSort _ candles

/-! ### Factor calculator (src/factors/calculator.py)

The period arguments whose values determine the returned dictionary keys
(`periods=[1,4,24]` for momentum, volume and OI) are fixed at their source
defaults; every claim and every call site in the repository uses the
defaults. -/

/-- Return dictionary of `calculate_momentum`. -/
structure MomentumFactors where
  momentum_1h : Option ℝ
  momentum_4h : Option ℝ
  momentum_24h : Option ℝ
  momentum_percentile : Option ℝ
  macd_signal : Option ℝ
  trend_strength : Option ℝ
  ema_signal : Option ℝ

/-- The all-null momentum dictionary returned on insufficient data. -/
def nullMomentum : MomentumFactors :=
  ⟨none, none, none, none, none, none, none⟩

/-- Loop body of the momentum-period loop: percentage return
`closes[-1]/closes[-(p+1)] - 1` (×100), requiring `len ≥ p + 1`. -/
noncomputable def momentumReturn (closes : List ℝ) (p : ℕ) : Option ℝ :=
  if p + 1 ≤ closes.length then
    some ((lastD closes / negIdx closes (p + 1) 0 - 1) * 100)
  else none

/-- `FactorCalculator.calculate_momentum` with the default
`periods = [1, 4, 24]`. -/
noncomputable def calculate_momentum (candles : List Candle) : MomentumFactors :=
  if candles.length < 24 then nullMomentum
  else
    let closes := (sortCandles candles).map Candle.close
    let momentum_1h := momentumReturn closes 1
    let momentum_4h := momentumReturn closes 4
    let momentum_24h := momentumReturn closes 24
    let momentum_percentile :=
      if 25 ≤ closes.length then
        let window := lastN closes 25
        let recent_returns :=
          List.zipWith (fun d c => d / c * 100) (diff window) (window.take 24)
        match momentum_1h with
        | some r => some (((countLt recent_returns r : ℝ) / recent_returns.length) * 100)
        | none => none
      else none
    let macd_sig_trend :=
      match calculate_macd closes 12 26 9 with
      | some (macd_line, signal_line, histogram) =>
          (some (if lastD signal_line < lastD macd_line then (1 : ℝ) else -1),
           some (lastD histogram / (lastD closes * 0.01)))
      | none => (some 0, some 0)
    let ema_signal := (calculate_ema_crossover closes 9 21).2
    { momentum_1h := momentum_1h
      momentum_4h := momentum_4h
      momentum_24h := momentum_24h
      momentum_percentile := momentum_percentile
      macd_signal := macd_sig_trend.1
      trend_strength := macd_sig_trend.2
      ema_signal := some (ema_signal : ℝ) }

/-- Return dictionary of `calculate_mean_reversion`. -/
structure MeanReversionFactors where
  mean_reversion_zscore : Option ℝ
  rsi : Option ℝ
  bb_position : Option ℝ

/-- The all-null mean-reversion dictionary. -/
def nullMeanReversion : MeanReversionFactors :=
  ⟨none, none, none⟩

/-- `FactorCalculator.calculate_mean_reversion` (lookback parameter kept;
default 24). When `len(rsi_series) > 0` the source reads `rsi_series[-1]`,
which under the `len ≥ lookback ≥ 15` guards is never NaN; a NaN tail would
surface as `none` here. -/
noncomputable def calculate_mean_reversion (candles : List Candle)
    (lookback_periods : ℕ) : MeanReversionFactors :=
  if candles.length < lookback_periods then nullMeanReversion
  else
    let closes := (sortCandles candles).map Candle.close
    let window := pyLastSlice closes lookback_periods
    let ma := listMean window
    let std := popStd window
    let current_price := lastD closes
    let zscore := if 0 < std then (current_price - ma) / std else 0
    let rsi : Option ℝ :=
      if 0 < (calculate_rsi closes 14).length then
        (calculate_rsi closes 14).getLastD none
      else some 50
    let bands := calculate_bollinger_bands closes 20 2
    let bb_position :=
      match bands.1.getLastD none, bands.2.2.getLastD none with
      | some upper, some lower =>
          if 0 < upper - lower then
            ((current_price - lower) / (upper - lower) - 0.5) * 2
          else 0
      | _, _ => 0
    { mean_reversion_zscore := some zscore
      rsi := rsi
      bb_position := some bb_position }

/-- Return dictionary of `calculate_volatility`. -/
structure VolatilityFactors where
  volatility_atr_pct : Option ℝ

/-- `FactorCalculator.calculate_volatility` (period parameter kept; default
14). Note the source does not sort this frame. Under the guard the ATR array
is never the all-NaN fallback, so `getD []` is never taken. -/
noncomputable def calculate_volatility (candles : List Candle) (period : ℕ) :
    VolatilityFactors :=
  if candles.length < period + 1 then ⟨none⟩
  else
    let high := candles.map Candle.high
    let low := candles.map Candle.low
    let close := candles.map Candle.close
    let atr := (calculate_atr high low close period).getD []
    let current_price := lastD close
    ⟨some (if 0 < current_price then lastD atr / current_price * 100 else 0)⟩

/-- Return dictionary of `calculate_carry`. -/
structure CarryFactors where
  carry_funding_annualized : Option ℝ
  carry_basis : Option ℝ

/-- `FactorCalculator.calculate_carry`. -/
noncomputable def calculate_carry (funding_rate mark_price index_price : Option ℝ) :
    CarryFactors :=
  { carry_funding_annualized := funding_rate.map fun f => f * 3 * 365
    carry_basis :=
      match mark_price, index_price with
      | some m, some i => if 0 < i then some ((m - i) / i * 100) else none
      | _, _ => none }

/-- Return dictionary of `calculate_volume_factors`. -/
structure VolumeFactors where
  volume_momentum_1h : Option ℝ
  volume_momentum_4h : Option ℝ
  volume_momentum_24h : Option ℝ
  volume_anomaly_zscore : Option ℝ
  volume_percentile : Option ℝ
  volume_price_divergence : Option ℝ

/-- The all-null volume dictionary. -/
def nullVolume : VolumeFactors :=
  ⟨none, none, none, none, none, none⟩

/-- Loop body of the volume-momentum loop. `volumes[-period]` is the volume
`period - 1` rows before the latest one (for `period = 1` it is the latest
volume itself). -/
noncomputable def volumeMomentum (volumes : List ℝ) (p : ℕ) : Option ℝ :=
  if p ≤ volumes.length then
    let current_volume := lastD volumes
    let past_volume :=
      if p < volumes.length then negIdx volumes p 0 else volumes.headD 0
    if 0 < past_volume then some ((current_volume / past_volume - 1) * 100)
    else none
  else none

/-- Pearson correlation of two arrays (`np.corrcoef(x, y)[0, 1]`); `none`
models the NaN produced when either side has zero variance. -/
noncomputable def pearsonCorr (x y : List ℝ) : Option ℝ :=
  if popVar x = 0 ∨ popVar y = 0 then none
  else some
    ((((x.zip y).map fun p => (p.1 - listMean x) * (p.2 - listMean y)).sum /
        x.length) / (popStd x * popStd y))

/-- `FactorCalculator.calculate_volume_factors` with the default
`periods = [1, 4, 24]` (lookback parameter kept; default 24). -/
noncomputable def calculate_volume_factors (candles : List Candle)
    (lookback_periods : ℕ) : VolumeFactors :=
  if candles.length < max 24 lookback_periods then nullVolume
  else
    let sorted := sortCandles candles
    let volumes := sorted.map Candle.volume
    let closes := sorted.map Candle.close
    let volume_anomaly_zscore :=
      if lookback_periods ≤ volumes.length then
        let hist := pyLastSlice volumes lookback_periods
        let mean_volume := listMean hist
        let std_volume := popStd hist
        if 0 < std_volume then some ((lastD volumes - mean_volume) / std_volume)
        else some 0
      else none
    let volume_percentile :=
      if lookback_periods ≤ volumes.length then
        let hist := pyLastSlice volumes lookback_periods
        some (((countLt hist (lastD volumes) : ℝ) / hist.length) * 100)
      else none
    let volume_price_divergence :=
      if lookback_periods ≤ candles.length then
        let volume_changes := diff (pyLastSlice volumes lookback_periods)
        let price_changes := diff (pyLastSlice closes lookback_periods)
        if 1 < volume_changes.length ∧ 1 < price_changes.length then
          let vnorm := volume_changes.map fun x =>
            (x - listMean volume_changes) / (popStd volume_changes + 1e-10)
          let pnorm := price_changes.map fun x =>
            (x - listMean price_changes) / (popStd price_changes + 1e-10)
          match pearsonCorr vnorm pnorm with
          | some c => some (-c)
          | none => some 0
        else none
      else none
    { volume_momentum_1h := volumeMomentum volumes 1
      volume_momentum_4h := volumeMomentum volumes 4
      volume_momentum_24h := volumeMomentum volumes 24
      volume_anomaly_zscore := volume_anomaly_zscore
      volume_percentile := volume_percentile
      volume_price_divergence := volume_price_divergence }

/-- Return dictionary of `calculate_oi_factors`. -/
structure OIFactors where
  oi_change_1h : Option ℝ
  oi_change_4h : Option ℝ
  oi_change_24h : Option ℝ

/-- The all-null OI dictionary. -/
def nullOI : OIFactors :=
  ⟨none, none, none⟩

/-- Loop body of the OI-change loop; the source checks `past_oi > 0` and that
both endpoints are not NaN. -/
noncomputable def oiChange (oi_values : List (Option ℝ)) (p : ℕ) : Option ℝ :=
  if p + 1 ≤ oi_values.length then
    match negIdx oi_values 1 none, negIdx oi_values (p + 1) none with
    | some current_oi, some past_oi =>
        if 0 < past_oi then some ((current_oi / past_oi - 1) * 100) else none
    | _, _ => none
  else none

/-- `FactorCalculator.calculate_oi_factors` with the default
`periods = [1, 4, 24]`; `hasOIColumn` models whether the frame has an
`open_interest` column at all. -/
noncomputable def calculate_oi_factors (candles : List Candle)
    (hasOIColumn : Bool) : OIFactors :=
  if hasOIColumn = false ∨ candles.length < 24 then nullOI
  else
    let oi_values := (sortCandles candles).map Candle.open_interest
    { oi_change_1h := oiChange oi_values 1
      oi_change_4h := oiChange oi_values 4
      oi_change_24h := oiChange oi_values 24 }

/-- Return dictionary of `calculate_btc_correlation`. -/
structure BtcCorrelationFactors where
  btc_correlation : Option ℝ
  btc_beta : Option ℝ

/-- The all-null correlation dictionary. -/
def nullBtcCorrelation : BtcCorrelationFactors :=
  ⟨none, none⟩

/-- Simple returns `np.diff(closes) / closes[:-1]`; the sources assume
nonzero prices (ℝ division by zero gives 0 where numpy would give inf/NaN). -/
noncomputable def simpleReturns (closes : List ℝ) : List ℝ :=
  List.zipWith (fun d c => d / c) (diff closes) (closes.dropLast)

/-- `FactorCalculator.calculate_btc_correlation` (lookback parameter kept;
default 24). -/
noncomputable def calculate_btc_correlation (asset_candles btc_candles : List Candle)
    (lookback_periods : ℕ) : BtcCorrelationFactors :=
  if asset_candles.length < lookback_periods ∨
      btc_candles.length < lookback_periods then nullBtcCorrelation
  else
    let asset_closes := lastN ((sortCandles asset_candles).map Candle.close) lookback_periods
    let btc_closes := lastN ((sortCandles btc_candles).map Candle.close) lookback_periods
    let min_len := min asset_closes.length btc_closes.length
    if min_len < 2 then nullBtcCorrelation
    else
      let a := lastN asset_closes min_len
      let b := lastN btc_closes min_len
      let asset_returns := simpleReturns a
      let btc_returns := simpleReturns b
      if asset_returns.length < 2 then nullBtcCorrelation
      else
        let correlation :=
          match pearsonCorr asset_returns btc_returns with
          | some c => c
          | none => 0
        let covariance := sampleCov asset_returns btc_returns
        let btc_variance := popVar btc_returns
        { btc_correlation := some correlation
          btc_beta := some (if 0 < btc_variance then covariance / btc_variance else 1) }

/-! ### Composite scorer (`calculate_composite_score`) -/

/-- Python `value or 0` on a possibly-missing float: `None` (and 0.0) become
0. -/
noncomputable def pyOr0 (o : Option ℝ) : ℝ :=
  o.getD 0

set_option linter.unusedVariables false in
/-- `FactorCalculator.calculate_composite_score`; the configured weights are
taken as an explicit argument (the source reads `self.factor_weights`). The
`volatility` argument is accepted and unused, as in the source. -/
noncomputable def calculate_composite_score (w : FactorWeights)
    (momentum : MomentumFactors) (mean_reversion : MeanReversionFactors)
    (carry : CarryFactors) (volume : Option VolumeFactors)
    (volatility : Option VolatilityFactors) : ℝ :=
  let momentum_score := pyOr0 momentum.momentum_24h
  let macd_signal := pyOr0 momentum.macd_signal
  let momentum_normalized := Real.tanh (momentum_score / 10 + macd_signal * 0.5)
  let mean_reversion_score := pyOr0 mean_reversion.mean_reversion_zscore
  let bb_pos := pyOr0 mean_reversion.bb_position
  let mean_reversion_normalized := Real.tanh (mean_reversion_score / 3 + bb_pos * 0.5)
  let carry_score := pyOr0 carry.carry_funding_annualized
  let carry_normalized := Real.tanh (carry_score / 50)
  let volume_normalized :=
    match volume with
    | some v =>
        (Real.tanh (pyOr0 v.volume_anomaly_zscore / 3) +
         Real.tanh (pyOr0 v.volume_price_divergence / 2)) / 2
    | none => 0
  w.momentum * momentum_normalized +
    w.mean_reversion * mean_reversion_normalized +
    w.carry * carry_normalized +
    w.volume * volume_normalized

/-! ### Outlier detector (`FactorCalculator.identify_outliers`) -/

/-- The string values `"top"` / `"bottom"` of the `outlier_type` key. -/
inductive OutlierType
  | top
  | bottom
deriving DecidableEq

/-- One score dictionary of the batch. `composite_score` is `none` when the
key is missing or holds `None` (both are dropped by `dropna`). For the two
flag keys, the outer `Option` is `none` when the KEY IS ABSENT from the
dictionary; `outlier_type = some none` means the key is present and holds
Python `None`. `extra` stands for all the other keys and values of the
dictionary, which the detector never touches. -/
structure ScoreRec where
  composite_score : Option ℝ
  is_outlier : Option Bool
  outlier_type : Option (Option OutlierType)
  extra : ℤ

instance : Inhabited ScoreRec :=
  ⟨⟨none, none, none, 0⟩⟩

/-- Ascending sort of the score values (pandas sorts before interpolating a
quantile). -/
noncomputable def sortAsc (l : List ℝ) : List ℝ :=
  List.insertionSort (fun a b => a ≤ b) l

/-- Linear interpolation of a sorted value array at fractional position
`pos`: `v[⌊pos⌋] + frac·(v[⌊pos⌋+1] - v[⌊pos⌋])`. -/
noncomputable def interpAt (s : List ℝ) (pos : ℚ) : ℝ :=
  s.getD ⌊pos⌋₊ 0 + ((pos - ⌊pos⌋₊ : ℚ) : ℝ) * (s.getD (⌊pos⌋₊ + 1) 0 - s.getD ⌊pos⌋₊ 0)

/-- pandas `Series.quantile(q)` with the default linear interpolation:
position `q·(n-1)` between the sorted values. -/
noncomputable def pandasQuantile (q : ℚ) (l : List ℝ) : ℝ :=
  interpAt (sortAsc l) (q * (((sortAsc l).length : ℚ) - 1))

/-- Flags written by the IQR loop for one record. -/
noncomputable def iqrFlag (lower_bound upper_bound : ℝ) (r : ScoreRec) : ScoreRec :=
  match r.composite_score with
  | none => { r with is_outlier := some false, outlier_type := some none }
  | some composite =>
      if upper_bound < composite then
        { r with is_outlier := some true, outlier_type := some (some .top) }
      else if composite < lower_bound then
        { r with is_outlier := some true, outlier_type := some (some .bottom) }
      else
        { r with is_outlier := some false, outlier_type := some none }

/-- `Q1 - 2.0·IQR`: the lower IQR bound (multiplier fixed at 2.0). -/
noncomputable def iqrLowerBound (scores : List ScoreRec) : ℝ :=
  pandasQuantile (1 / 4) (scores.filterMap ScoreRec.composite_score) -
    2 * (pandasQuantile (3 / 4) (scores.filterMap ScoreRec.composite_score) -
      pandasQuantile (1 / 4) (scores.filterMap ScoreRec.composite_score))

/-- `Q3 + 2.0·IQR`: the upper IQR bound (multiplier fixed at 2.0). -/
noncomputable def iqrUpperBound (scores : List ScoreRec) : ℝ :=
  pandasQuantile (3 / 4) (scores.filterMap ScoreRec.composite_score) +
    2 * (pandasQuantile (3 / 4) (scores.filterMap ScoreRec.composite_score) -
      pandasQuantile (1 / 4) (scores.filterMap ScoreRec.composite_score))

/-- The IQR branch: quartiles of the non-null scores, bounds with the fixed
multiplier 2.0, then one flagged copy per input record. -/
noncomputable def iqrPhase (scores : List ScoreRec) : List ScoreRec :=
  scores.map (iqrFlag (iqrLowerBound scores) (iqrUpperBound scores))

/-- The Z-score branch. `std` is the pandas sample std of the non-null
scores; for a single score it is NaN in the source and `Real.sqrt (x/0) = 0`
here — either way the `std > 0` test fails and every z-score is 0. The source
looks each record's z-score up by its first score match in the frame, which
yields exactly `(c - mean)/std`. -/
noncomputable def zscorePhase (z_threshold : ℝ) (scores : List ScoreRec) : List ScoreRec :=
  let composite_scores := scores.filterMap ScoreRec.composite_score
  let mean_score := listMean composite_scores
  let std_score := sampleStd composite_scores
  scores.map fun r =>
    match r.composite_score with
    | none => { r with is_outlier := some false, outlier_type := some none }
    | some composite =>
        let z := if 0 < std_score then (composite - mean_score) / std_score else 0
        { r with
          is_outlier := some (decide (z_threshold ≤ |z|))
          outlier_type :=
            some (if 0 < z then some .top else if z < 0 then some .bottom else none) }

/-- Python `float_value or default` (0.0 and None are falsy). -/
noncomputable def pyOrFloat (o : Option ℝ) (d : ℝ) : ℝ :=
  match o with
  | some x => if x ≠ 0 then x else d
  | none => d

/-- Python truthiness of an optional int argument (None and 0 are falsy). -/
def pyTruthyNat : Option ℕ → Bool
  | none => false
  | some n => n != 0

/-- Python `int_value or default`. -/
def pyOrNat (o : Option ℕ) (d : ℕ) : ℕ :=
  match o with
  | some n => if n ≠ 0 then n else d
  | none => d

/-- The statistical phase of `identify_outliers` (steps before the forced
top/bottom-N inclusion): IQR when `use_iqr` and at least 4 scored records,
else Z-score. -/
noncomputable def statPhase (cfg : Thresholds) (z_score_threshold : Option ℝ)
    (use_iqr : Bool) (scores : List ScoreRec) : List ScoreRec :=
  if use_iqr = true ∧ 4 ≤ (scores.filterMap ScoreRec.composite_score).length then
    iqrPhase scores
  else
    zscorePhase (pyOrFloat z_score_threshold cfg.outlier_z_score) scores

/-- Sort key of the forced-inclusion sort (`x["composite_score"]`; only
applied to records whose score is non-null). -/
noncomputable def scoreKey (p : ℕ × ScoreRec) : ℝ :=
  pyOr0 p.2.composite_score

/-- `sorted([r for r in results if r.get("composite_score") is not None],
key=..., reverse=True)`: the non-null records, tagged with their position in
`results`, stably sorted by descending score. -/
noncomputable def sortedNonNull (results : List ScoreRec) : List (ℕ × ScoreRec) :=
  List.insertionSort (fun p q => scoreKey q ≤ scoreKey p)
    (results.enum.filter fun p => p.2.composite_score.isSome)

/-- Positions force-flagged `top` (the first `t` of the descending sort). -/
noncomputable def forcedTopIdx (t : ℕ) (results : List ScoreRec) : List ℕ :=
  ((sortedNonNull results).take t).map Prod.fst

/-- Positions force-flagged `bottom` (the slice `sorted_scores[-b:]`; for
`b = 0` that Python slice is the whole list). -/
noncomputable def forcedBottomIdx (b : ℕ) (results : List ScoreRec) : List ℕ :=
  (pyLastSlice (sortedNonNull results) b).map Prod.fst

/-- The in-place update of the top loop. -/
def setTop (r : ScoreRec) : ScoreRec :=
  { r with is_outlier := some true, outlier_type := some (some .top) }

/-- The in-place update of the bottom loop (runs after the top loop, so it
wins on a record hit by both). -/
def setBottom (r : ScoreRec) : ScoreRec :=
  { r with is_outlier := some true, outlier_type := some (some .bottom) }

/-- The forced top/bottom-N inclusion step, acting on the statistical-phase
results. -/
noncomputable def forcedInclusion (t b : ℕ) (results : List ScoreRec) : List ScoreRec :=
  results.enum.map fun p =>
    if p.1 ∈ forcedBottomIdx b results then setBottom p.2
    else if p.1 ∈ forcedTopIdx t results then setTop p.2
    else p.2

/-- `FactorCalculator.identify_outliers`. An empty batch returns `[]`; a
batch whose scores are all null returns the input list itself; otherwise the
statistical phase produces one flagged copy per record and, when `top_n` or
`bottom_n` is truthy (with falsy arguments replaced by the configured
defaults), the forced-inclusion step overwrites the flags of the selected
records. -/
noncomputable def identify_outliers (cfg : Thresholds) (scores : List ScoreRec)
    (z_score_threshold : Option ℝ) (top_n bottom_n : Option ℕ)
    (use_iqr : Bool) : List ScoreRec :=
  if scores.isEmpty then []
  else if (scores.filterMap ScoreRec.composite_score).length = 0 then scores
  else
    let results := statPhase cfg z_score_threshold use_iqr scores
    if pyTruthyNat top_n || pyTruthyNat bottom_n then
      forcedInclusion (pyOrNat top_n cfg.top_n_outliers)
        (pyOrNat bottom_n cfg.bottom_n_outliers) results
    else results

/-! ### Heap model of `identify_outliers` (for the frame/no-mutation claim)

Python dictionaries are heap objects. To state that the detector never
mutates its caller's dictionaries and returns fresh copies, the same source
code is modelled once more at the level of an explicit heap: a list of
records, with dictionaries named by their index. `score_dict.copy()` plus
`results.append(...)` allocates one fresh record per input record at the end
of the heap (in input order), and the forced-inclusion loops write through
the addresses of those fresh records. -/

/-- Allocate the given (already flagged) copies one by one at the end of the
heap, returning the new heap and the addresses of the copies in order. -/
def allocAll (heap : List ScoreRec) : List ScoreRec → List ScoreRec × List ℕ
  | [] => (heap, [])
  | r :: rs =>
      let rest := allocAll (heap ++ [r]) rs
      (rest.1, heap.length :: rest.2)

/-- In-place update of the dictionary at address `a`. -/
def writeAt (heap : List ScoreRec) (a : ℕ) (f : ScoreRec → ScoreRec) : List ScoreRec :=
  heap.set a (f (heap.getD a default))

/-- The forced-inclusion step on the heap: the sort reads the freshly
allocated records, and the two loops mutate them through their addresses. -/
noncomputable def forcedInclusionHeap (t b : ℕ) (heap : List ScoreRec)
    (outs : List ℕ) : List ScoreRec :=
  let results := outs.map fun a => heap.getD a default
  let topAddrs := (forcedTopIdx t results).map fun i => outs.getD i 0
  let bottomAddrs := (forcedBottomIdx b results).map fun i => outs.getD i 0
  let h1 := topAddrs.foldl (fun h a => writeAt h a setTop) heap
  bottomAddrs.foldl (fun h a => writeAt h a setBottom) h1

/-- `identify_outliers` on the heap: takes the addresses of the caller's
dictionaries, returns the new heap and the addresses of the returned
dictionaries. The all-null branch returns the caller's own addresses
(`return scores` returns the same objects). -/
noncomputable def identify_outliers_heap (cfg : Thresholds) (heap : List ScoreRec)
    (addrs : List ℕ) (z_score_threshold : Option ℝ) (top_n bottom_n : Option ℕ)
    (use_iqr : Bool) : List ScoreRec × List ℕ :=
  let scores := addrs.map fun a => heap.getD a default
  if scores.isEmpty then (heap, [])
  else if (scores.filterMap ScoreRec.composite_score).length = 0 then (heap, addrs)
  else
    let alloc := allocAll heap (statPhase cfg z_score_threshold use_iqr scores)
    if pyTruthyNat top_n || pyTruthyNat bottom_n then
      (forcedInclusionHeap (pyOrNat top_n cfg.top_n_outliers)
        (pyOrNat bottom_n cfg.bottom_n_outliers) alloc.1 alloc.2, alloc.2)
    else alloc

/-! ### Shared facts and test fixtures -/

/-- The default `Thresholds` of src/config.py. -/
noncomputable def defaultThresholds : Thresholds :=
  ⟨2, 10, 10⟩

/-- The hyperbolic tangent is bounded by 1 in absolute value. -/
theorem abs_tanh_le_one (x : ℝ) : |Real.tanh x| ≤ 1 := by
  rw [Real.tanh_eq_sinh_div_cosh, abs_div, abs_of_pos (Real.cosh_pos x),
    div_le_one (Real.cosh_pos x)]
  nlinarith [Real.cosh_sq x, sq_abs (Real.sinh x), abs_nonneg (Real.sinh x),
    Real.cosh_pos x]

/-- `l[-1]` read through `getD (len-1)` agrees with the last element. -/
theorem getD_length_sub_one (l : List ℝ) (h : l ≠ []) :
    l.getD (l.length - 1) 0 = l.getLastD 0 := by
  induction l with
  | nil => exact absurd rfl h
  | cons x xs ih =>
    cases xs with
    | nil => rfl
    | cons y ys =>
      have h2 := ih (by simp)
      simp only [List.length_cons] at h2 ⊢
      simpa [List.getD_cons_succ] using h2

/-- `negIdx l 1` is the last element of a nonempty list. -/
theorem negIdx_one_eq_lastD (l : List ℝ) (h : l ≠ []) : negIdx l 1 0 = lastD l :=
  getD_length_sub_one l h

/-- A 24-candle series (timestamps 0..23, all prices and volumes 1). -/
noncomputable def testCandles24 : List Candle :=
  (List.range 24).map fun i => ⟨(i : ℤ), 1, 1, 1, 1, 1, none⟩

/-! ### Claim theorems -/

/-- A weighted sum of four terms of absolute value at most 1, with
non-negative weights, is bounded by the sum of the weights. -/
theorem weighted_sum_abs_le (w1 w2 w3 w4 t1 t2 t3 t4 : ℝ)
    (h1 : 0 ≤ w1) (h2 : 0 ≤ w2) (h3 : 0 ≤ w3) (h4 : 0 ≤ w4)
    (b1 : |t1| ≤ 1) (b2 : |t2| ≤ 1) (b3 : |t3| ≤ 1) (b4 : |t4| ≤ 1) :
    |w1 * t1 + w2 * t2 + w3 * t3 + w4 * t4| ≤ w1 + w2 + w3 + w4 := by
  have m1 : |w1 * t1| ≤ w1 := by
    rw [abs_mul, abs_of_nonneg h1]
    simpa using mul_le_mul_of_nonneg_left b1 h1
  have m2 : |w2 * t2| ≤ w2 := by
    rw [abs_mul, abs_of_nonneg h2]
    simpa using mul_le_mul_of_nonneg_left b2 h2
  have m3 : |w3 * t3| ≤ w3 := by
    rw [abs_mul, abs_of_nonneg h3]
    simpa using mul_le_mul_of_nonneg_left b3 h3
  have m4 : |w4 * t4| ≤ w4 := by
    rw [abs_mul, abs_of_nonneg h4]
    simpa using mul_le_mul_of_nonneg_left b4 h4
  have l1 := abs_le.mp m1
  have l2 := abs_le.mp m2
  have l3 := abs_le.mp m3
  have l4 := abs_le.mp m4
  rw [abs_le]
  constructor <;> [linarith [l1.1, l2.1, l3.1, l4.1]; linarith [l1.2, l2.2, l3.2, l4.2]]

/-- The average of two tanh values has absolute value at most 1. -/
theorem avg_two_tanh_abs_le (x y : ℝ) : |(Real.tanh x + Real.tanh y) / 2| ≤ 1 := by
  have t1 := abs_tanh_le_one x
  have t2 := abs_tanh_le_one y
  have habs := abs_add (Real.tanh x) (Real.tanh y)
  rw [abs_div, abs_two, div_le_one (by norm_num : (0:ℝ) < 2)]
  linarith

/-- C1: for every quadruple of factor dictionaries and non-negative weights,
`calculate_composite_score` lies in
`[-(w_mom + w_mr + w_carry + w_vol), +(w_mom + w_mr + w_carry + w_vol)]`, and
null entries are treated as 0 before the tanh normalization (filling every
null entry with 0 does not change the score). -/
theorem C1_composite_score_bounded (w : FactorWeights) (m : MomentumFactors)
    (mr : MeanReversionFactors) (c : CarryFactors) (v : Option VolumeFactors)
    (vol : Option VolatilityFactors) (hm : 0 ≤ w.momentum)
    (hmr : 0 ≤ w.mean_reversion) (hc : 0 ≤ w.carry) (hv : 0 ≤ w.volume) :
    |calculate_composite_score w m mr c v vol| ≤
      w.momentum + w.mean_reversion + w.carry + w.volume ∧
    calculate_composite_score w m mr c v vol =
      calculate_composite_score w
        { m with momentum_24h := some (pyOr0 m.momentum_24h),
                 macd_signal := some (pyOr0 m.macd_signal) }
        { mr with mean_reversion_zscore := some (pyOr0 mr.mean_reversion_zscore),
                  bb_position := some (pyOr0 mr.bb_position) }
        { c with carry_funding_annualized := some (pyOr0 c.carry_funding_annualized) }
        (v.map fun vf =>
          { vf with volume_anomaly_zscore := some (pyOr0 vf.volume_anomaly_zscore),
                    volume_price_divergence := some (pyOr0 vf.volume_price_divergence) })
        vol := by
  constructor
  · cases v with
    | none =>
      dsimp only [calculate_composite_score]
      exact weighted_sum_abs_le _ _ _ _ _ _ _ _ hm hmr hc hv
        (abs_tanh_le_one _) (abs_tanh_le_one _) (abs_tanh_le_one _) (by simp)
    | some vf =>
      dsimp only [calculate_composite_score]
      exact weighted_sum_abs_le _ _ _ _ _ _ _ _ hm hmr hc hv
        (abs_tanh_le_one _) (abs_tanh_le_one _) (abs_tanh_le_one _)
        (avg_two_tanh_abs_le _ _)
  · cases v <;> simp [calculate_composite_score, pyOr0]

/-- C1 witness: the bound at the default weights and all-null factor
dictionaries. -/
theorem C1_composite_score_bounded_witness :
    |calculate_composite_score ⟨0.25, 0.25, 0.3, 0.2⟩ nullMomentum
        nullMeanReversion ⟨none, none⟩ none none| ≤ 0.25 + 0.25 + 0.3 + 0.2 :=
  (C1_composite_score_bounded ⟨0.25, 0.25, 0.3, 0.2⟩ nullMomentum
    nullMeanReversion ⟨none, none⟩ none none (by norm_num) (by norm_num)
    (by norm_num) (by norm_num)).1

/-- C5: every factor method returns its all-null dictionary on a series
shorter than its guard window, and (being a total function of the embedding)
never raises. -/
theorem C5_insufficient_data_all_null (candles btc_candles : List Candle)
    (hasOIColumn : Bool) (lookback_periods period : ℕ) :
    (candles.length < 24 → calculate_momentum candles = nullMomentum) ∧
    (candles.length < lookback_periods →
      calculate_mean_reversion candles lookback_periods = nullMeanReversion) ∧
    (candles.length < period + 1 → calculate_volatility candles period = ⟨none⟩) ∧
    (candles.length < max 24 lookback_periods →
      calculate_volume_factors candles lookback_periods = nullVolume) ∧
    (candles.length < 24 → calculate_oi_factors candles hasOIColumn = nullOI) ∧
    (candles.length < lookback_periods →
      calculate_btc_correlation candles btc_candles lookback_periods =
        nullBtcCorrelation) := by
  refine ⟨fun h => ?_, fun h => ?_, fun h => ?_, fun h => ?_, fun h => ?_,
    fun h => ?_⟩
  · simp [calculate_momentum, h]
  · simp [calculate_mean_reversion, h]
  · simp [calculate_volatility, h]
  · simp [calculate_volume_factors, h]
  · simp [calculate_oi_factors, h]
  · simp [calculate_btc_correlation, h]

/-- C5 witness: the empty series is below every guard window. -/
theorem C5_insufficient_data_all_null_witness :
    calculate_momentum [] = nullMomentum ∧
    calculate_mean_reversion [] 24 = nullMeanReversion ∧
    calculate_volatility [] 14 = ⟨none⟩ ∧
    calculate_volume_factors [] 24 = nullVolume ∧
    calculate_oi_factors [] true = nullOI ∧
    calculate_btc_correlation [] [] 24 = nullBtcCorrelation := by
  obtain ⟨h1, h2, h3, h4, h5, h6⟩ :=
    C5_insufficient_data_all_null [] [] true 24 14
  exact ⟨h1 (by decide), h2 (by decide), h3 (by decide), h4 (by decide),
    h5 (by decide), h6 (by decide)⟩

/-- C6 counterexample: on a series of length 24 (MACD undefined because
24 < 26) `calculate_momentum` returns `macd_signal` and `trend_strength` as
the neutral value 0.0, not as null, contradicting the claim. -/
theorem C6_counterexample :
    (calculate_momentum testCandles24).macd_signal = some 0 ∧
    (calculate_momentum testCandles24).trend_strength = some 0 ∧
    (calculate_momentum testCandles24).macd_signal ≠ none ∧
    (calculate_momentum testCandles24).trend_strength ≠ none := by
  have h1 : (calculate_momentum testCandles24).macd_signal = some 0 := rfl
  have h2 : (calculate_momentum testCandles24).trend_strength = some 0 := rfl
  refine ⟨h1, h2, ?_, ?_⟩
  · rw [h1]; exact Option.some_ne_none 0
  · rw [h2]; exact Option.some_ne_none 0

/-- C6 (amended): when the series is long enough for the momentum guard but
shorter than the MACD slow period (24 ≤ len < 26), `calculate_momentum`
returns `macd_signal = 0.0` and `trend_strength = 0.0` — the explicit neutral
fallback of the source — rather than null. -/
theorem C6_macd_neutral_on_undefined (candles : List Candle)
    (h1 : 24 ≤ candles.length) (h2 : candles.length < 26) :
    (calculate_momentum candles).macd_signal = some 0 ∧
    (calculate_momentum candles).trend_strength = some 0 := by
  have hlt : ¬ candles.length < 24 := by omega
  have hs : (sortCandles candles).length < 26 := by
    rw [length_sortCandles]; exact h2
  constructor <;> simp [calculate_momentum, hlt, calculate_macd, hs]

/-- C6 amended-claim witness at the concrete series of length 24. -/
theorem C6_macd_neutral_on_undefined_witness :
    (calculate_momentum testCandles24).trend_strength = some 0 :=
  (C6_macd_neutral_on_undefined testCandles24 (by decide) (by decide)).2

/-- C8: on any series of length at least 24, the 1-hour volume momentum
compares the latest volume with itself (`volumes[-1]`), so it is exactly 0
whenever the latest volume is positive and null otherwise. -/
theorem C8_volume_momentum_1h_zero (candles : List Candle)
    (h : 24 ≤ candles.length) :
    (0 < lastD ((sortCandles candles).map Candle.volume) →
      (calculate_volume_factors candles 24).volume_momentum_1h = some 0) ∧
    (lastD ((sortCandles candles).map Candle.volume) ≤ 0 →
      (calculate_volume_factors candles 24).volume_momentum_1h = none) := by
  have hlt : ¬ candles.length < 24 := by omega
  have hlen : ((sortCandles candles).map Candle.volume).length = candles.length := by
    simp [length_sortCandles]
  have h1le : 1 ≤ candles.length := by omega
  have h1lt : 1 < candles.length := by omega
  have hne : (sortCandles candles).map Candle.volume ≠ [] := by
    intro hnil
    rw [hnil] at hlen
    simp at hlen
    omega
  have hpast : negIdx ((sortCandles candles).map Candle.volume) 1 0 =
      lastD ((sortCandles candles).map Candle.volume) :=
    negIdx_one_eq_lastD _ hne
  constructor
  · intro hpos
    have hne0 : lastD ((sortCandles candles).map Candle.volume) ≠ 0 := ne_of_gt hpos
    simp [calculate_volume_factors, hlt, volumeMomentum, length_sortCandles,
      h1le, h1lt, hpast, hpos, div_self hne0]
  · intro hnonpos
    have hnp : ¬ 0 < lastD ((sortCandles candles).map Candle.volume) :=
      not_lt.mpr hnonpos
    simp [calculate_volume_factors, hlt, volumeMomentum, length_sortCandles,
      h1le, h1lt, hpast, hnp]

/-- C8 witness at the concrete 24-candle series with unit volumes. -/
theorem C8_volume_momentum_1h_zero_witness :
    (calculate_volume_factors testCandles24 24).volume_momentum_1h = some 0 := by
  have hl : lastD ((sortCandles testCandles24).map Candle.volume) = 1 := rfl
  exact (C8_volume_momentum_1h_zero testCandles24 (by decide)).1
    (by rw [hl]; norm_num)

/-- Every RSI value combined from non-negative smoothed gains and losses lies
in [0, 100]. -/
theorem rsiCombine_bounds {g l : List ℝ} (hg : ∀ x ∈ g, 0 ≤ x)
    (hl : ∀ x ∈ l, 0 ≤ x) :
    ∀ o ∈ rsiCombine g l, ∀ y ∈ o, 0 ≤ y ∧ y ≤ 100 := by
  induction g generalizing l with
  | nil => intro o ho; simp [rsiCombine] at ho
  | cons g0 gs ih =>
    cases l with
    | nil => intro o ho; simp [rsiCombine] at ho
    | cons l0 ls =>
      intro o ho
      simp only [rsiCombine, List.mem_cons] at ho
      rcases ho with rfl | ho
      · intro y hy
        rw [Option.mem_some_iff] at hy
        subst hy
        by_cases h0 : l0 = 0
        · rw [if_pos h0]; norm_num
        · have hl0 : 0 ≤ l0 := hl l0 (List.mem_cons_self _ _)
          have hl0p : 0 < l0 := lt_of_le_of_ne hl0 (Ne.symm h0)
          have hg0 : 0 ≤ g0 := hg g0 (List.mem_cons_self _ _)
          have hrs : 0 ≤ g0 / l0 := div_nonneg hg0 hl0
          have hdiv_pos : 0 < 100 / (1 + g0 / l0) := by positivity
          have hdiv_le : 100 / (1 + g0 / l0) ≤ 100 :=
            div_le_self (by norm_num) (by linarith)
          rw [if_neg h0]
          constructor <;> linarith
      · exact ih (fun x hx => hg x (List.mem_cons_of_mem _ hx))
          (fun x hx => hl x (List.mem_cons_of_mem _ hx)) o ho

/-- When the last smoothed average loss is 0, the last combined RSI value is
exactly 100. -/
theorem rsiCombine_getLast {g l : List ℝ} (hlen : g.length = l.length)
    (hne : l ≠ []) (hz : l.getLast? = some 0) :
    (rsiCombine g l).getLast? = some (some 100) := by
  induction g generalizing l with
  | nil =>
    cases l with
    | nil => exact absurd rfl hne
    | cons l0 ls => simp at hlen
  | cons g0 gs ih =>
    cases l with
    | nil => exact absurd rfl hne
    | cons l0 ls =>
      cases ls with
      | nil =>
        cases gs with
        | nil =>
          have hl0 : l0 = 0 := by
            have := hz
            simp only [List.getLast?_singleton, Option.some.injEq] at this
            exact this
          subst hl0
          simp [rsiCombine]
        | cons g1 gs' => simp at hlen
      | cons l1 ls' =>
        cases gs with
        | nil => simp at hlen
        | cons g1 gs' =>
          have hlen' : (g1 :: gs').length = (l1 :: ls').length := by
            simpa using hlen
          have hz' : (l1 :: ls').getLast? = some 0 := by
            simpa [List.getLast?_cons_cons] using hz
          have hrec := ih hlen' (by simp) hz'
          simpa [rsiCombine, List.getLast?_cons_cons] using hrec

theorem diff_cons_cons (a b : ℝ) (t : List ℝ) :
    diff (a :: b :: t) = (b - a) :: diff (b :: t) := rfl

theorem length_diff (l : List ℝ) : (diff l).length = l.length - 1 := by
  simp only [diff, List.length_map, List.length_zip, List.length_tail]
  exact min_eq_left (Nat.sub_le _ _)

/-- A strictly increasing price series has strictly positive deltas. -/
theorem diff_pos_of_chain {l : List ℝ} (h : List.Chain' (fun a b => a < b) l) :
    ∀ d ∈ diff l, 0 < d := by
  induction l with
  | nil => intro d hd; simp [diff] at hd
  | cons a t ih =>
    cases t with
    | nil => intro d hd; simp [diff] at hd
    | cons b t' =>
      rw [List.chain'_cons] at h
      intro d hd
      rw [diff_cons_cons, List.mem_cons] at hd
      rcases hd with rfl | hd
      · linarith [h.1]
      · exact ih h.2 d hd

theorem getLast?_eq_zero_of_all_zero {l : List ℝ} (hne : l ≠ [])
    (h : ∀ x ∈ l, x = 0) : l.getLast? = some 0 := by
  rw [List.getLast?_eq_getLast_of_ne_nil hne]
  exact congrArg some (h _ (List.getLast_mem hne))

/-- C7: every defined RSI value lies in [0, 100]; the final RSI is exactly
100 whenever the Wilder-smoothed average loss is zero (in particular when the
average gain is positive); and a strictly monotonically increasing price
series produces a final RSI of exactly 100. -/
theorem C7_rsi_bounds (prices : List ℝ) (period : ℕ) (hp : 0 < period)
    (hl : period + 1 ≤ prices.length) :
    (∀ x ∈ calculate_rsi prices period, ∀ y ∈ x, 0 ≤ y ∧ y ≤ 100) ∧
    ((rsiAvgLoss prices period).getLast? = some 0 →
      (calculate_rsi prices period).getLast? = some (some 100)) ∧
    (List.Chain' (fun a b => a < b) prices →
      (calculate_rsi prices period).getLast? = some (some 100)) := by
  have hguard : ¬ prices.length < period + 1 := by omega
  have hpR : (1 : ℝ) ≤ (period : ℝ) := by exact_mod_cast hp
  have ha0 : (0:ℝ) ≤ 1 / (period : ℝ) := by positivity
  have ha1 : 1 / (period : ℝ) ≤ 1 := by
    rw [div_le_one (by linarith)]
    exact hpR
  have hGnn : ∀ x ∈ rsiAvgGain prices period, 0 ≤ x := by
    apply ewmAlpha_nonneg ha0 ha1
    intro x hx
    simp only [rsiGains, List.mem_map] at hx
    obtain ⟨d, _, rfl⟩ := hx
    by_cases hd : 0 < d
    · rw [if_pos hd]; linarith
    · rw [if_neg hd]
  have hLnn : ∀ x ∈ rsiAvgLoss prices period, 0 ≤ x := by
    apply ewmAlpha_nonneg ha0 ha1
    intro x hx
    simp only [rsiLosses, List.mem_map] at hx
    obtain ⟨d, _, rfl⟩ := hx
    by_cases hd : d < 0
    · rw [if_pos hd]; linarith
    · rw [if_neg hd]
  have hLG : (rsiAvgGain prices period).length = prices.length - 1 := by
    simp [rsiAvgGain, length_ewmAlpha, rsiGains, length_diff]
  have hLL : (rsiAvgLoss prices period).length = prices.length - 1 := by
    simp [rsiAvgLoss, length_ewmAlpha, rsiLosses, length_diff]
  have hlen : (rsiAvgGain prices period).length = (rsiAvgLoss prices period).length := by
    rw [hLG, hLL]
  have hLpos : 0 < (rsiAvgLoss prices period).length := by rw [hLL]; omega
  have hLne : rsiAvgLoss prices period ≠ [] := List.length_pos.mp hLpos
  have hGpos : 0 < (rsiAvgGain prices period).length := by rw [hLG]; omega
  have hGne : rsiAvgGain prices period ≠ [] := List.length_pos.mp hGpos
  have key : (rsiAvgLoss prices period).getLast? = some 0 →
      (calculate_rsi prices period).getLast? = some (some 100) := by
    intro hz
    rw [calculate_rsi, if_neg hguard]
    have hcomb := rsiCombine_getLast hlen hLne hz
    obtain ⟨g0, gs, hgeq⟩ := List.exists_cons_of_ne_nil hGne
    obtain ⟨l0, ls, hleq⟩ := List.exists_cons_of_ne_nil hLne
    rw [hgeq, hleq] at hcomb ⊢
    rw [show rsiCombine (g0 :: gs) (l0 :: ls) =
      some (if l0 = 0 then 100 else 100 - 100 / (1 + g0 / l0)) :: rsiCombine gs ls
      from rfl] at hcomb ⊢
    rw [List.getLast?_cons_cons]
    exact hcomb
  refine ⟨?_, key, ?_⟩
  · intro x hx y hy
    rw [calculate_rsi, if_neg hguard] at hx
    rcases List.mem_cons.mp hx with rfl | hx'
    · simp at hy
    · exact rsiCombine_bounds hGnn hLnn x hx' y hy
  · intro hchain
    have hzero : ∀ x ∈ rsiLosses prices, x = 0 := by
      intro x hx
      simp only [rsiLosses, List.mem_map] at hx
      obtain ⟨d, hd, rfl⟩ := hx
      have hdp := diff_pos_of_chain hchain d hd
      rw [if_neg (by linarith)]
    have hall : ∀ x ∈ rsiAvgLoss prices period, x = 0 := by
      simpa [rsiAvgLoss] using ewmAlpha_zero hzero
    exact key (getLast?_eq_zero_of_all_zero hLne hall)

/-- Strictly rising 15-price series for the C7 witness. -/
noncomputable def risingPrices : List ℝ :=
  [0, 1, 2, 3, 4, 5, 6, 7, 8, 9, 10, 11, 12, 13, 14]

/-- C7 witness: RSI(14) of a strictly rising 15-price series ends at exactly
100. -/
theorem C7_rsi_bounds_witness :
    (calculate_rsi risingPrices 14).getLast? = some (some 100) :=
  (C7_rsi_bounds risingPrices 14 (by norm_num) (by norm_num [risingPrices])).2.2
    (by norm_num [risingPrices, List.chain'_cons])

/-! ### Detector phase lemmas -/

theorem iqrFlag_composite (lb ub : ℝ) (r : ScoreRec) :
    (iqrFlag lb ub r).composite_score = r.composite_score := by
  unfold iqrFlag
  split
  · rfl
  · split_ifs <;> rfl

theorem iqrFlag_extra (lb ub : ℝ) (r : ScoreRec) :
    (iqrFlag lb ub r).extra = r.extra := by
  unfold iqrFlag
  split
  · rfl
  · split_ifs <;> rfl

theorem iqrFlag_flags_present (lb ub : ℝ) (r : ScoreRec) :
    (iqrFlag lb ub r).is_outlier ≠ none ∧ (iqrFlag lb ub r).outlier_type ≠ none := by
  unfold iqrFlag
  split
  · exact ⟨Option.some_ne_none _, Option.some_ne_none _⟩
  · split_ifs <;> exact ⟨Option.some_ne_none _, Option.some_ne_none _⟩

theorem map_composite_iqrPhase (scores : List ScoreRec) :
    (iqrPhase scores).map ScoreRec.composite_score =
      scores.map ScoreRec.composite_score := by
  unfold iqrPhase
  rw [List.map_map]
  exact List.map_congr_left fun r _ => iqrFlag_composite _ _ r

theorem map_extra_iqrPhase (scores : List ScoreRec) :
    (iqrPhase scores).map ScoreRec.extra = scores.map ScoreRec.extra := by
  unfold iqrPhase
  rw [List.map_map]
  exact List.map_congr_left fun r _ => iqrFlag_extra _ _ r

theorem map_composite_zscorePhase (zt : ℝ) (scores : List ScoreRec) :
    (zscorePhase zt scores).map ScoreRec.composite_score =
      scores.map ScoreRec.composite_score := by
  unfold zscorePhase
  rw [List.map_map]
  refine List.map_congr_left fun r _ => ?_
  dsimp only [Function.comp]
  split <;> rfl

theorem map_extra_zscorePhase (zt : ℝ) (scores : List ScoreRec) :
    (zscorePhase zt scores).map ScoreRec.extra = scores.map ScoreRec.extra := by
  unfold zscorePhase
  rw [List.map_map]
  refine List.map_congr_left fun r _ => ?_
  dsimp only [Function.comp]
  split <;> rfl

theorem map_composite_statPhase (cfg : Thresholds) (z? : Option ℝ) (u : Bool)
    (scores : List ScoreRec) :
    (statPhase cfg z? u scores).map ScoreRec.composite_score =
      scores.map ScoreRec.composite_score := by
  unfold statPhase
  split
  · exact map_composite_iqrPhase scores
  · exact map_composite_zscorePhase _ scores

theorem map_extra_statPhase (cfg : Thresholds) (z? : Option ℝ) (u : Bool)
    (scores : List ScoreRec) :
    (statPhase cfg z? u scores).map ScoreRec.extra = scores.map ScoreRec.extra := by
  unfold statPhase
  split
  · exact map_extra_iqrPhase scores
  · exact map_extra_zscorePhase _ scores

theorem length_statPhase (cfg : Thresholds) (z? : Option ℝ) (u : Bool)
    (scores : List ScoreRec) :
    (statPhase cfg z? u scores).length = scores.length := by
  have h := congrArg List.length (map_composite_statPhase cfg z? u scores)
  simpa using h

theorem flags_present_statPhase (cfg : Thresholds) (z? : Option ℝ) (u : Bool)
    (scores : List ScoreRec) :
    ∀ r' ∈ statPhase cfg z? u scores,
      r'.is_outlier ≠ none ∧ r'.outlier_type ≠ none := by
  intro r' hr'
  unfold statPhase at hr'
  split at hr'
  · unfold iqrPhase at hr'
    rw [List.mem_map] at hr'
    obtain ⟨r, _, rfl⟩ := hr'
    exact iqrFlag_flags_present _ _ r
  · unfold zscorePhase at hr'
    rw [List.mem_map] at hr'
    obtain ⟨r, _, rfl⟩ := hr'
    dsimp only
    split <;> exact ⟨Option.some_ne_none _, Option.some_ne_none _⟩

theorem setTop_composite (r : ScoreRec) :
    (setTop r).composite_score = r.composite_score := rfl

theorem setBottom_composite (r : ScoreRec) :
    (setBottom r).composite_score = r.composite_score := rfl

theorem setTop_extra (r : ScoreRec) : (setTop r).extra = r.extra := rfl

theorem setBottom_extra (r : ScoreRec) : (setBottom r).extra = r.extra := rfl

theorem map_forcedInclusion {α : Type} (g : ScoreRec → α)
    (hTop : ∀ r, g (setTop r) = g r) (hBot : ∀ r, g (setBottom r) = g r)
    (t b : ℕ) (results : List ScoreRec) :
    (forcedInclusion t b results).map g = results.map g := by
  unfold forcedInclusion
  rw [List.map_map]
  have hcongr : ∀ p ∈ results.enum,
      (g ∘ fun p : ℕ × ScoreRec =>
        if p.1 ∈ forcedBottomIdx b results then setBottom p.2
        else if p.1 ∈ forcedTopIdx t results then setTop p.2 else p.2) p
      = (g ∘ Prod.snd) p := by
    intro p _
    dsimp only [Function.comp]
    split_ifs <;> simp [hTop, hBot]
  rw [List.map_congr_left hcongr, ← List.map_map, List.enum_map_snd]

theorem length_forcedInclusion (t b : ℕ) (results : List ScoreRec) :
    (forcedInclusion t b results).length = results.length := by
  unfold forcedInclusion
  simp [List.enum_length]

theorem flags_present_forcedInclusion (t b : ℕ) (results : List ScoreRec)
    (h : ∀ r ∈ results, r.is_outlier ≠ none ∧ r.outlier_type ≠ none) :
    ∀ r' ∈ forcedInclusion t b results,
      r'.is_outlier ≠ none ∧ r'.outlier_type ≠ none := by
  intro r' hr'
  unfold forcedInclusion at hr'
  rw [List.mem_map] at hr'
  obtain ⟨p, hp, rfl⟩ := hr'
  have hmem : p.2 ∈ results := by
    have h := List.mem_enum_iff_getElem?.mp hp
    exact List.get?_mem (by rw [List.get?_eq_getElem?]; exact h)
  split_ifs
  · exact ⟨Option.some_ne_none _, Option.some_ne_none _⟩
  · exact ⟨Option.some_ne_none _, Option.some_ne_none _⟩
  · exact h p.2 hmem

/-- C4 counterexample: a batch with a single record whose composite score is
null is returned unchanged by `identify_outliers` — the record does NOT carry
`is_outlier`/`outlier_type` keys in the output, contradicting the claim that
every returned record carries both fields. -/
noncomputable def nullScoreRec : ScoreRec := ⟨none, none, none, 7⟩

/-- C4 counterexample theorem (see `nullScoreRec`): the all-null batch is
returned as-is, with the `is_outlier` key absent from the returned record. -/
theorem C4_counterexample :
    identify_outliers defaultThresholds [nullScoreRec] none (some 1) (some 1)
        true = [nullScoreRec] ∧
    ((identify_outliers defaultThresholds [nullScoreRec] none (some 1) (some 1)
        true).getD 0 default).is_outlier = none :=
  ⟨rfl, rfl⟩

/-- C4 (amended): `identify_outliers` always preserves cardinality and order
(witnessed per position by the untouched `composite_score` and `extra`
contents); an empty input yields `[]`; an all-null batch returns the input
records unchanged (hence unflagged); and whenever at least one record has a
non-null composite score, every returned record carries both `is_outlier` and
`outlier_type` keys. -/
theorem C4_shape_and_fields (cfg : Thresholds) (scores : List ScoreRec)
    (z? : Option ℝ) (top_n bottom_n : Option ℕ) (use_iqr : Bool) :
    (identify_outliers cfg scores z? top_n bottom_n use_iqr).length =
      scores.length ∧
    (identify_outliers cfg scores z? top_n bottom_n use_iqr).map
      ScoreRec.composite_score = scores.map ScoreRec.composite_score ∧
    (identify_outliers cfg scores z? top_n bottom_n use_iqr).map
      ScoreRec.extra = scores.map ScoreRec.extra ∧
    (scores = [] →
      identify_outliers cfg scores z? top_n bottom_n use_iqr = []) ∧
    ((∀ r ∈ scores, r.composite_score = none) →
      identify_outliers cfg scores z? top_n bottom_n use_iqr = scores) ∧
    ((∃ r ∈ scores, r.composite_score ≠ none) →
      ∀ r' ∈ identify_outliers cfg scores z? top_n bottom_n use_iqr,
        r'.is_outlier ≠ none ∧ r'.outlier_type ≠ none) := by
  by_cases h0 : scores.isEmpty
  · have he : scores = [] := List.isEmpty_iff.mp h0
    subst he
    simp [identify_outliers]
  · by_cases h1 : (scores.filterMap ScoreRec.composite_score).length = 0
    · have hout : identify_outliers cfg scores z? top_n bottom_n use_iqr =
          scores := by
        unfold identify_outliers
        rw [if_neg (by simpa using h0), if_pos h1]
      rw [hout]
      refine ⟨rfl, rfl, rfl, fun he => he, fun _ => rfl, fun hex => ?_⟩
      obtain ⟨r, hr, hne⟩ := hex
      have hall := List.filterMap_eq_nil_iff.mp (List.length_eq_zero.mp h1)
      exact absurd (hall r hr) hne
    · have hout : identify_outliers cfg scores z? top_n bottom_n use_iqr =
          (if pyTruthyNat top_n || pyTruthyNat bottom_n then
            forcedInclusion (pyOrNat top_n cfg.top_n_outliers)
              (pyOrNat bottom_n cfg.bottom_n_outliers)
              (statPhase cfg z? use_iqr scores)
          else statPhase cfg z? use_iqr scores) := by
        unfold identify_outliers
        rw [if_neg (by simpa using h0), if_neg h1]
      have hcs : (identify_outliers cfg scores z? top_n bottom_n use_iqr).map
          ScoreRec.composite_score = scores.map ScoreRec.composite_score := by
        rw [hout]
        split
        · rw [map_forcedInclusion ScoreRec.composite_score setTop_composite
            setBottom_composite]
          exact map_composite_statPhase cfg z? use_iqr scores
        · exact map_composite_statPhase cfg z? use_iqr scores
      have hex : (identify_outliers cfg scores z? top_n bottom_n use_iqr).map
          ScoreRec.extra = scores.map ScoreRec.extra := by
        rw [hout]
        split
        · rw [map_forcedInclusion ScoreRec.extra setTop_extra setBottom_extra]
          exact map_extra_statPhase cfg z? use_iqr scores
        · exact map_extra_statPhase cfg z? use_iqr scores
      have hlen : (identify_outliers cfg scores z? top_n bottom_n use_iqr).length
          = scores.length := by
        have h := congrArg List.length hcs
        simpa using h
      refine ⟨hlen, hcs, hex, fun he => ?_, fun hall => ?_, fun _ => ?_⟩
      · rw [he] at h0
        simp at h0
      · exact absurd (by simp [List.filterMap_eq_nil_iff.mpr hall]) h1
      · intro r' hr'
        rw [hout] at hr'
        revert hr'
        split
        · intro hr'
          exact flags_present_forcedInclusion _ _ _
            (flags_present_statPhase cfg z? use_iqr scores) r' hr'
        · intro hr'
          exact flags_present_statPhase cfg z? use_iqr scores r' hr'

/-- C4 amended-claim witness: cardinality preservation at a concrete batch. -/
theorem C4_shape_witness :
    (identify_outliers defaultThresholds [nullScoreRec] none (some 1) (some 1)
      true).length = [nullScoreRec].length :=
  (C4_shape_and_fields defaultThresholds [nullScoreRec] none (some 1)
    (some 1) true).1

/-- Normal form of `identify_outliers` when the batch is nonempty and has at
least one non-null score. -/
theorem identify_outliers_main (cfg : Thresholds) (scores : List ScoreRec)
    (z? : Option ℝ) (top_n bottom_n : Option ℕ) (u : Bool)
    (h0 : ¬ scores.isEmpty = true)
    (h1 : (scores.filterMap ScoreRec.composite_score).length ≠ 0) :
    identify_outliers cfg scores z? top_n bottom_n u =
      if pyTruthyNat top_n || pyTruthyNat bottom_n then
        forcedInclusion (pyOrNat top_n cfg.top_n_outliers)
          (pyOrNat bottom_n cfg.bottom_n_outliers) (statPhase cfg z? u scores)
      else statPhase cfg z? u scores := by
  unfold identify_outliers
  rw [if_neg h0, if_neg h1]

/-- A concrete batch with four non-null scores. -/
noncomputable def testBatch4 : List ScoreRec :=
  [⟨some 0, none, none, 0⟩, ⟨some 1, none, none, 1⟩,
   ⟨some 2, none, none, 2⟩, ⟨some 3, none, none, 3⟩]

/-- C10: a falsy `top_n`/`bottom_n` argument (0 or None) does not disable
forced inclusion on that side while the other side is truthy — the falsy
argument is replaced by the configured default; only when both arguments are
falsy is the forced-inclusion step skipped entirely (the result is exactly
the statistical phase). -/
theorem C10_falsy_top_bottom_defaults (cfg : Thresholds)
    (scores : List ScoreRec) (z? : Option ℝ) (u : Bool) :
    (∀ b : ℕ, 0 < b →
      identify_outliers cfg scores z? (some 0) (some b) u =
        identify_outliers cfg scores z? (some cfg.top_n_outliers) (some b) u) ∧
    (∀ t : ℕ, 0 < t →
      identify_outliers cfg scores z? (some t) (some 0) u =
        identify_outliers cfg scores z? (some t)
          (some cfg.bottom_n_outliers) u) ∧
    (¬ scores.isEmpty = true →
      (scores.filterMap ScoreRec.composite_score).length ≠ 0 →
      identify_outliers cfg scores z? (some 0) (some 0) u =
        statPhase cfg z? u scores ∧
      identify_outliers cfg scores z? none none u = statPhase cfg z? u scores) := by
  refine ⟨fun b hb => ?_, fun t ht => ?_, fun h0 h1 => ?_⟩
  · by_cases h0 : scores.isEmpty
    · simp [identify_outliers, h0]
    · by_cases h1 : (scores.filterMap ScoreRec.composite_score).length = 0
      · simp [identify_outliers, h0, h1]
      · rw [identify_outliers_main cfg scores z? (some 0) (some b) u h0 h1,
          identify_outliers_main cfg scores z? (some cfg.top_n_outliers)
            (some b) u h0 h1]
        have e1 : pyTruthyNat (some b) = true := by
          simp [pyTruthyNat, hb.ne']
        have e2 : pyOrNat (some 0) cfg.top_n_outliers = cfg.top_n_outliers := by
          simp [pyOrNat]
        have e3 : pyOrNat (some cfg.top_n_outliers) cfg.top_n_outliers =
            cfg.top_n_outliers := by
          by_cases h : cfg.top_n_outliers = 0 <;> simp [pyOrNat, h]
        rw [e1, e2, e3]
        simp
  · by_cases h0 : scores.isEmpty
    · simp [identify_outliers, h0]
    · by_cases h1 : (scores.filterMap ScoreRec.composite_score).length = 0
      · simp [identify_outliers, h0, h1]
      · rw [identify_outliers_main cfg scores z? (some t) (some 0) u h0 h1,
          identify_outliers_main cfg scores z? (some t)
            (some cfg.bottom_n_outliers) u h0 h1]
        have e1 : pyTruthyNat (some t) = true := by
          simp [pyTruthyNat, ht.ne']
        have e2 : pyOrNat (some 0) cfg.bottom_n_outliers =
            cfg.bottom_n_outliers := by
          simp [pyOrNat]
        have e3 : pyOrNat (some cfg.bottom_n_outliers) cfg.bottom_n_outliers =
            cfg.bottom_n_outliers := by
          by_cases h : cfg.bottom_n_outliers = 0 <;> simp [pyOrNat, h]
        rw [e1, e2, e3]
        simp
  · constructor
    · rw [identify_outliers_main cfg scores z? (some 0) (some 0) u h0 h1]
      simp [pyTruthyNat]
    · rw [identify_outliers_main cfg scores z? none none u h0 h1]
      simp [pyTruthyNat]

/-- C10 witness: with `top_n = 0` and `bottom_n = 1`, the call behaves as if
`top_n` were the configured default. -/
theorem C10_falsy_top_bottom_defaults_witness :
    identify_outliers defaultThresholds testBatch4 none (some 0) (some 1)
        true =
      identify_outliers defaultThresholds testBatch4 none
        (some defaultThresholds.top_n_outliers) (some 1) true :=
  (C10_falsy_top_bottom_defaults defaultThresholds testBatch4 none true).1 1
    (by norm_num)

/-! ### Quantile interpolation facts (for the IQR claim) -/

theorem sortAsc_length (l : List ℝ) : (sortAsc l).length = l.length :=
  List.length_insertionSort _ l

theorem sortAsc_sorted (l : List ℝ) :
    List.Sorted (fun a b : ℝ => a ≤ b) (sortAsc l) := by
  haveI : IsTotal ℝ (fun a b : ℝ => a ≤ b) := ⟨le_total⟩
  haveI : IsTrans ℝ (fun a b : ℝ => a ≤ b) := ⟨fun _ _ _ => le_trans⟩
  exact List.sorted_insertionSort _ l

theorem sorted_getD_mono {s : List ℝ} (hs : List.Sorted (fun a b : ℝ => a ≤ b) s)
    {a b : ℕ} (hab : a ≤ b) (hb : b < s.length) :
    s.getD a 0 ≤ s.getD b 0 := by
  have ha : a < s.length := lt_of_le_of_lt hab hb
  rw [List.getD_eq_getElem s 0 ha, List.getD_eq_getElem s 0 hb]
  rcases eq_or_lt_of_le hab with rfl | hab'
  · exact le_refl _
  · exact List.pairwise_iff_get.mp hs ⟨a, ha⟩ ⟨b, hb⟩ hab'

/-- Linear interpolation over a sorted array is monotone in the position (as
long as the positions stay strictly below the last index, so that all reads
are in range). -/
theorem interpAt_mono (s : List ℝ) (hs : List.Sorted (fun a b : ℝ => a ≤ b) s)
    {p q : ℚ} (hp : 0 ≤ p) (hpq : p ≤ q) (hq : q < (s.length : ℚ) - 1) :
    interpAt s p ≤ interpAt s q := by
  have hq0 : 0 ≤ q := le_trans hp hpq
  have hij : ⌊p⌋₊ ≤ ⌊q⌋₊ := Nat.floor_mono hpq
  have hjq : (⌊q⌋₊ : ℚ) ≤ q := Nat.floor_le hq0
  have hjlt : (⌊q⌋₊ : ℚ) < (s.length : ℚ) - 1 := lt_of_le_of_lt hjq hq
  have hj1 : ⌊q⌋₊ + 1 < s.length := by
    have h : (⌊q⌋₊ : ℚ) + 1 < (s.length : ℚ) := by linarith
    exact_mod_cast h
  have hi1 : ⌊p⌋₊ + 1 < s.length := by omega
  have hfp0 : 0 ≤ p - (⌊p⌋₊ : ℚ) := sub_nonneg.mpr (Nat.floor_le hp)
  have hfp1 : p - (⌊p⌋₊ : ℚ) ≤ 1 := by
    have h := (Nat.lt_floor_add_one p).le
    linarith
  have hfq0 : 0 ≤ q - (⌊q⌋₊ : ℚ) := sub_nonneg.mpr (Nat.floor_le hq0)
  unfold interpAt
  rcases eq_or_lt_of_le hij with heq | hlt
  · rw [← heq]
    have hcell : s.getD ⌊p⌋₊ 0 ≤ s.getD (⌊p⌋₊ + 1) 0 :=
      sorted_getD_mono hs (Nat.le_succ _) hi1
    have hfpq : ((p - (⌊p⌋₊ : ℚ) : ℚ) : ℝ) ≤ ((q - (⌊p⌋₊ : ℚ) : ℚ) : ℝ) := by
      have h : p - (⌊p⌋₊ : ℚ) ≤ q - (⌊p⌋₊ : ℚ) := by linarith
      exact_mod_cast h
    nlinarith [hfpq, hcell]
  · have h1 : s.getD ⌊p⌋₊ 0 + ((p - (⌊p⌋₊ : ℚ) : ℚ) : ℝ) *
        (s.getD (⌊p⌋₊ + 1) 0 - s.getD ⌊p⌋₊ 0) ≤ s.getD (⌊p⌋₊ + 1) 0 := by
      have hcell : s.getD ⌊p⌋₊ 0 ≤ s.getD (⌊p⌋₊ + 1) 0 :=
        sorted_getD_mono hs (Nat.le_succ _) hi1
      have f0 : (0:ℝ) ≤ ((p - (⌊p⌋₊ : ℚ) : ℚ) : ℝ) := by exact_mod_cast hfp0
      have f1 : ((p - (⌊p⌋₊ : ℚ) : ℚ) : ℝ) ≤ 1 := by exact_mod_cast hfp1
      nlinarith
    have h2 : s.getD (⌊p⌋₊ + 1) 0 ≤ s.getD ⌊q⌋₊ 0 :=
      sorted_getD_mono hs hlt (by omega)
    have h3 : s.getD ⌊q⌋₊ 0 ≤ s.getD ⌊q⌋₊ 0 + ((q - (⌊q⌋₊ : ℚ) : ℚ) : ℝ) *
        (s.getD (⌊q⌋₊ + 1) 0 - s.getD ⌊q⌋₊ 0) := by
      have hcell : s.getD ⌊q⌋₊ 0 ≤ s.getD (⌊q⌋₊ + 1) 0 :=
        sorted_getD_mono hs (Nat.le_succ _) hj1
      have f0 : (0:ℝ) ≤ ((q - (⌊q⌋₊ : ℚ) : ℚ) : ℝ) := by exact_mod_cast hfq0
      nlinarith
    linarith

/-- For a population of at least 2 values, the 25th percentile is at most the
75th percentile. -/
theorem pandasQuantile_q1_le_q3 (l : List ℝ) (h2 : 2 ≤ l.length) :
    pandasQuantile (1/4) l ≤ pandasQuantile (3/4) l := by
  unfold pandasQuantile
  have hlen : (sortAsc l).length = l.length := sortAsc_length l
  have hn : (2:ℚ) ≤ ((sortAsc l).length : ℚ) := by
    rw [hlen]
    exact_mod_cast h2
  apply interpAt_mono (sortAsc l) (sortAsc_sorted l)
  · nlinarith
  · nlinarith
  · nlinarith

theorem iqrLower_le_upper (scores : List ScoreRec)
    (h4 : 4 ≤ (scores.filterMap ScoreRec.composite_score).length) :
    iqrLowerBound scores ≤ iqrUpperBound scores := by
  have h := pandasQuantile_q1_le_q3 (scores.filterMap ScoreRec.composite_score)
    (by omega)
  unfold iqrLowerBound iqrUpperBound
  linarith

/-- Characterization of the flags written by the IQR loop for one record
(`lb ≤ ub` rules out the impossible overlap of the two strict bounds). -/
theorem iqrFlag_spec (lb ub : ℝ) (hlu : lb ≤ ub) (r : ScoreRec) :
    (((iqrFlag lb ub r).is_outlier = some true ∧
        (iqrFlag lb ub r).outlier_type = some (some OutlierType.top)) ↔
      (∃ c, r.composite_score = some c ∧ ub < c)) ∧
    (((iqrFlag lb ub r).is_outlier = some true ∧
        (iqrFlag lb ub r).outlier_type = some (some OutlierType.bottom)) ↔
      (∃ c, r.composite_score = some c ∧ c < lb)) ∧
    (r.composite_score = none →
      (iqrFlag lb ub r).is_outlier = some false ∧
      (iqrFlag lb ub r).outlier_type = some none) := by
  rcases hr : r.composite_score with _ | c
  · unfold iqrFlag
    rw [hr]
    simp [hr]
  · unfold iqrFlag
    rw [hr]
    dsimp only
    by_cases hub : ub < c
    · rw [if_pos hub]
      refine ⟨?_, ?_, fun h => absurd (hr ▸ h) (by simp [hr])⟩
      · simp [hr, hub]
      · constructor
        · rintro ⟨-, h⟩
          exact absurd h (by simp)
        · rintro ⟨c', hc', hlt⟩
          injection hc' with hc'
          subst hc'
          exfalso
          linarith
    · rw [if_neg hub]
      by_cases hlb : c < lb
      · rw [if_pos hlb]
        refine ⟨?_, ?_, fun h => absurd (hr ▸ h) (by simp [hr])⟩
        · constructor
          · rintro ⟨-, h⟩
            exact absurd h (by simp)
          · rintro ⟨c', hc', hgt⟩
            injection hc' with hc'
            subst hc'
            exact absurd hgt hub
        · simp [hr, hlb]
      · rw [if_neg hlb]
        refine ⟨?_, ?_, fun h => absurd (hr ▸ h) (by simp [hr])⟩
        · constructor
          · rintro ⟨h, -⟩
            exact absurd h (by simp)
          · rintro ⟨c', hc', hgt⟩
            injection hc' with hc'
            subst hc'
            exact absurd hgt hub
        · constructor
          · rintro ⟨h, -⟩
            exact absurd h (by simp)
          · rintro ⟨c', hc', hgt⟩
            injection hc' with hc'
            subst hc'
            exact absurd hgt hlb

/-- C3: with `use_iqr` and at least 4 non-null scores (and falsy top/bottom
arguments so that the forced step is skipped), `identify_outliers` is exactly
the IQR phase; a record is flagged `top` exactly when its score exceeds
`Q3 + 2.0·(Q3-Q1)`, flagged `bottom` exactly when its score is below
`Q1 - 2.0·(Q3-Q1)` (quartiles of the non-null scores), is otherwise
unflagged, and null-score records are never flagged. -/
theorem C3_iqr_flags (cfg : Thresholds) (scores : List ScoreRec)
    (z? : Option ℝ)
    (h4 : 4 ≤ (scores.filterMap ScoreRec.composite_score).length) :
    identify_outliers cfg scores z? none none true = iqrPhase scores ∧
    (∀ i r, scores.get? i = some r →
      ∃ r', (iqrPhase scores).get? i = some r' ∧
        r'.composite_score = r.composite_score ∧ r'.extra = r.extra ∧
        ((r'.is_outlier = some true ∧
            r'.outlier_type = some (some OutlierType.top)) ↔
          (∃ c, r.composite_score = some c ∧ iqrUpperBound scores < c)) ∧
        ((r'.is_outlier = some true ∧
            r'.outlier_type = some (some OutlierType.bottom)) ↔
          (∃ c, r.composite_score = some c ∧ c < iqrLowerBound scores)) ∧
        (r.composite_score = none →
          r'.is_outlier = some false ∧ r'.outlier_type = some none)) := by
  have hne : ¬ scores.isEmpty = true := by
    intro h
    rw [List.isEmpty_iff.mp h] at h4
    simp at h4
  have h1 : (scores.filterMap ScoreRec.composite_score).length ≠ 0 := by omega
  constructor
  · rw [identify_outliers_main cfg scores z? none none true hne h1]
    rw [show (pyTruthyNat none || pyTruthyNat none) = false from rfl,
      if_neg (by simp)]
    unfold statPhase
    rw [if_pos ⟨rfl, h4⟩]
  · intro i r hir
    refine ⟨iqrFlag (iqrLowerBound scores) (iqrUpperBound scores) r, ?_,
      iqrFlag_composite _ _ r, iqrFlag_extra _ _ r, ?_, ?_, ?_⟩
    · unfold iqrPhase
      rw [List.get?_map, hir]
      rfl
    · exact (iqrFlag_spec _ _ (iqrLower_le_upper scores h4) r).1
    · exact (iqrFlag_spec _ _ (iqrLower_le_upper scores h4) r).2.1
    · exact (iqrFlag_spec _ _ (iqrLower_le_upper scores h4) r).2.2

/-- C3 witness: on a concrete 4-record batch with `use_iqr`, the output is
the IQR phase itself. -/
theorem C3_iqr_flags_witness :
    identify_outliers defaultThresholds testBatch4 none none none true =
      iqrPhase testBatch4 :=
  (C3_iqr_flags defaultThresholds testBatch4 none (by decide)).1

/-! ### Forced-inclusion lemmas (for the forced top/bottom-N claim) -/

theorem length_enumFrom_filter_isSome {α β : Type} (f : α → Option β) :
    ∀ (n : ℕ) (l : List α),
      ((List.enumFrom n l).filter fun p => (f p.2).isSome).length =
        (l.filterMap f).length
  | _, [] => rfl
  | n, a :: l => by
      rw [List.enumFrom_cons, List.filter_cons, List.filterMap_cons]
      cases hfa : f a with
      | none => simpa [hfa] using length_enumFrom_filter_isSome f (n + 1) l
      | some b => simpa [hfa] using length_enumFrom_filter_isSome f (n + 1) l

theorem sortedNonNull_perm (results : List ScoreRec) :
    (sortedNonNull results).Perm
      (results.enum.filter fun p => p.2.composite_score.isSome) :=
  List.perm_insertionSort _ _

theorem sortedNonNull_length (results : List ScoreRec) :
    (sortedNonNull results).length =
      (results.filterMap ScoreRec.composite_score).length := by
  rw [(sortedNonNull_perm results).length_eq]
  exact length_enumFrom_filter_isSome ScoreRec.composite_score 0 results

theorem sortedNonNull_fst_nodup (results : List ScoreRec) :
    ((sortedNonNull results).map Prod.fst).Nodup := by
  have hsub : ((results.enum.filter fun p =>
      p.2.composite_score.isSome).map Prod.fst).Sublist
      (results.enum.map Prod.fst) :=
    (List.filter_sublist _).map Prod.fst
  have hnd := hsub.nodup (List.nodup_enum_map_fst results)
  exact (((sortedNonNull_perm results).map Prod.fst).nodup_iff).mpr hnd

theorem sortedNonNull_fst_lt (results : List ScoreRec) :
    ∀ p ∈ sortedNonNull results, p.1 < results.length := by
  intro p hp
  have hp' := (sortedNonNull_perm results).mem_iff.mp hp
  have hpe := List.mem_of_mem_filter hp'
  have h := List.mem_enum_iff_getElem?.mp hpe
  have hlt : p.1 < results.length := by
    by_contra hge
    rw [List.getElem?_eq_none (le_of_not_lt hge)] at h
    exact Option.noConfusion h
  exact hlt

/-- The two forced index lists are disjoint when there are at least `t + b`
scored records (and `b ≠ 0`). -/
theorem forced_idx_disjoint (t b : ℕ) (results : List ScoreRec) (hb : b ≠ 0)
    (htb : t + b ≤ (sortedNonNull results).length) {i : ℕ}
    (hiT : i ∈ forcedTopIdx t results) (hiB : i ∈ forcedBottomIdx b results) :
    False := by
  unfold forcedTopIdx at hiT
  unfold forcedBottomIdx pyLastSlice at hiB
  rw [if_neg hb] at hiB
  have hnd := sortedNonNull_fst_nodup results
  have hsplit : sortedNonNull results =
      (sortedNonNull results).take t ++ (sortedNonNull results).drop t :=
    (List.take_append_drop t _).symm
  have hnd2 : (((sortedNonNull results).take t).map Prod.fst ++
      ((sortedNonNull results).drop t).map Prod.fst).Nodup := by
    rw [← List.map_append, ← hsplit]
    exact hnd
  have hdisj := (List.nodup_append.mp hnd2).2.2
  have hdropdrop : (sortedNonNull results).drop ((sortedNonNull results).length - b) =
      ((sortedNonNull results).drop t).drop
        ((sortedNonNull results).length - b - t) := by
    rw [List.drop_drop]
    congr 1
    omega
  have hiB' : i ∈ ((sortedNonNull results).drop t).map Prod.fst := by
    rw [hdropdrop] at hiB
    exact (List.drop_sublist _ _).map Prod.fst |>.mem hiB
  exact hdisj hiT hiB'

/-- `get?` of the forced-inclusion output at a valid index. -/
theorem forcedInclusion_get? (t b : ℕ) (results : List ScoreRec) (i : ℕ)
    (hi : i < results.length) :
    (forcedInclusion t b results).get? i = some (
      if i ∈ forcedBottomIdx b results then setBottom (results.getD i default)
      else if i ∈ forcedTopIdx t results then setTop (results.getD i default)
      else results.getD i default) := by
  unfold forcedInclusion
  rw [List.get?_map, List.get?_enum, List.get?_eq_get hi]
  rw [List.getD_eq_getElem results default hi]
  rfl

theorem filterMap_composite_eq_of_map_eq {l₁ l₂ : List ScoreRec}
    (h : l₁.map ScoreRec.composite_score = l₂.map ScoreRec.composite_score) :
    l₁.filterMap ScoreRec.composite_score =
      l₂.filterMap ScoreRec.composite_score := by
  have key : ∀ l : List ScoreRec, l.filterMap ScoreRec.composite_score =
      (l.map ScoreRec.composite_score).filterMap id := by
    intro l
    rw [List.filterMap_map]
    rfl
  rw [key l₁, key l₂, h]

/-- C2 (amended): with truthy `top_n = t` and `bottom_n = b` and at least
`t + b` non-null scores, the output is the forced-inclusion step applied to
the statistical phase; the records at the `t` positions selected from the top
of the stable descending sort are flagged `top`, the records at the `b`
positions selected from its tail are flagged `bottom` (overwriting any prior
flag), there are exactly `t` and `b` such positions, and the selecting sort
is a descending-sorted permutation of the scored records. Records outside
these groups keep whatever flag the IQR/Z-score step gave them — they are not
unflagged, so more than `t + b` records can be flagged in the output. -/
theorem C2_forced_topN_bottomN (cfg : Thresholds) (scores : List ScoreRec)
    (z? : Option ℝ) (u : Bool) (t b : ℕ) (ht : 0 < t) (hb : 0 < b)
    (hcount : t + b ≤ (scores.filterMap ScoreRec.composite_score).length) :
    identify_outliers cfg scores z? (some t) (some b) u =
      forcedInclusion t b (statPhase cfg z? u scores) ∧
    (∀ i ∈ forcedTopIdx t (statPhase cfg z? u scores), ∀ r',
      (identify_outliers cfg scores z? (some t) (some b) u).get? i = some r' →
        r'.is_outlier = some true ∧
        r'.outlier_type = some (some OutlierType.top)) ∧
    (∀ i ∈ forcedBottomIdx b (statPhase cfg z? u scores), ∀ r',
      (identify_outliers cfg scores z? (some t) (some b) u).get? i = some r' →
        r'.is_outlier = some true ∧
        r'.outlier_type = some (some OutlierType.bottom)) ∧
    (forcedTopIdx t (statPhase cfg z? u scores)).length = t ∧
    (forcedBottomIdx b (statPhase cfg z? u scores)).length = b ∧
    List.Sorted (fun p q : ℕ × ScoreRec => scoreKey q ≤ scoreKey p)
      (sortedNonNull (statPhase cfg z? u scores)) ∧
    (sortedNonNull (statPhase cfg z? u scores)).Perm
      ((statPhase cfg z? u scores).enum.filter fun p =>
        p.2.composite_score.isSome) := by
  have hne : ¬ scores.isEmpty = true := by
    intro h
    rw [List.isEmpty_iff.mp h] at hcount
    simp at hcount
    omega
  have h1 : (scores.filterMap ScoreRec.composite_score).length ≠ 0 := by omega
  have hLlen : (sortedNonNull (statPhase cfg z? u scores)).length =
      (scores.filterMap ScoreRec.composite_score).length := by
    rw [sortedNonNull_length,
      filterMap_composite_eq_of_map_eq (map_composite_statPhase cfg z? u scores)]
  have hout : identify_outliers cfg scores z? (some t) (some b) u =
      forcedInclusion t b (statPhase cfg z? u scores) := by
    rw [identify_outliers_main cfg scores z? (some t) (some b) u hne h1]
    have hcond : (pyTruthyNat (some t) || pyTruthyNat (some b)) = true := by
      simp [pyTruthyNat, ht.ne']
    rw [hcond, if_pos rfl]
    have et : pyOrNat (some t) cfg.top_n_outliers = t := by
      simp [pyOrNat, ht.ne']
    have eb : pyOrNat (some b) cfg.bottom_n_outliers = b := by
      simp [pyOrNat, hb.ne']
    rw [et, eb]
  refine ⟨hout, ?_, ?_, ?_, ?_, ?_, sortedNonNull_perm _⟩
  · intro i hiT r' hr'
    have hiL : i < (statPhase cfg z? u scores).length := by
      unfold forcedTopIdx at hiT
      rw [List.mem_map] at hiT
      obtain ⟨p, hp, rfl⟩ := hiT
      exact sortedNonNull_fst_lt _ p (List.mem_of_mem_take hp)
    rw [hout, forcedInclusion_get? t b _ i hiL] at hr'
    have hiB : i ∉ forcedBottomIdx b (statPhase cfg z? u scores) := by
      intro hiB
      exact forced_idx_disjoint t b _ hb.ne' (by omega) hiT hiB
    rw [if_neg hiB, if_pos hiT] at hr'
    injection hr' with hr'
    subst hr'
    exact ⟨rfl, rfl⟩
  · intro i hiB r' hr'
    have hiL : i < (statPhase cfg z? u scores).length := by
      unfold forcedBottomIdx at hiB
      rw [List.mem_map] at hiB
      obtain ⟨p, hp, rfl⟩ := hiB
      refine sortedNonNull_fst_lt _ p ?_
      unfold pyLastSlice at hp
      rw [if_neg hb.ne'] at hp
      exact List.mem_of_mem_drop hp
    rw [hout, forcedInclusion_get? t b _ i hiL] at hr'
    rw [if_pos hiB] at hr'
    injection hr' with hr'
    subst hr'
    exact ⟨rfl, rfl⟩
  · unfold forcedTopIdx
    rw [List.length_map, List.length_take]
    omega
  · unfold forcedBottomIdx pyLastSlice
    rw [if_neg hb.ne', List.length_map, List.length_drop]
    omega
  · haveI : IsTotal (ℕ × ScoreRec) (fun p q => scoreKey q ≤ scoreKey p) :=
      ⟨fun p q => le_total (scoreKey q) (scoreKey p)⟩
    haveI : IsTrans (ℕ × ScoreRec) (fun p q => scoreKey q ≤ scoreKey p) :=
      ⟨fun _ _ _ h1 h2 => le_trans h2 h1⟩
    exact List.sorted_insertionSort _ _

/-- C2 amended-claim witness: a concrete call equals its forced-inclusion
normal form. -/
theorem C2_forced_topN_bottomN_witness :
    identify_outliers defaultThresholds testBatch4 none (some 1) (some 1)
        true =
      forcedInclusion 1 1 (statPhase defaultThresholds none true testBatch4) :=
  (C2_forced_topN_bottomN defaultThresholds testBatch4 none true 1 1
    (by norm_num) (by norm_num) (by decide)).1

/-- An 8-record batch: six zero scores and two extreme highs (10 and 11).
Quartiles of the scores are Q1 = 0, Q3 = 2.5, so the IQR bounds are
[-5, 7.5] and the IQR step flags BOTH high records `top`. -/
noncomputable def testBatchC2 : List ScoreRec :=
  [⟨some 0, none, none, 0⟩, ⟨some 0, none, none, 1⟩, ⟨some 0, none, none, 2⟩,
   ⟨some 0, none, none, 3⟩, ⟨some 0, none, none, 4⟩, ⟨some 0, none, none, 5⟩,
   ⟨some 10, none, none, 6⟩, ⟨some 11, none, none, 7⟩]

/-- The IQR-phase output on `testBatchC2`. -/
noncomputable def c2Flagged : List ScoreRec :=
  [⟨some 0, some false, some none, 0⟩, ⟨some 0, some false, some none, 1⟩,
   ⟨some 0, some false, some none, 2⟩, ⟨some 0, some false, some none, 3⟩,
   ⟨some 0, some false, some none, 4⟩, ⟨some 0, some false, some none, 5⟩,
   ⟨some 10, some true, some (some OutlierType.top), 6⟩,
   ⟨some 11, some true, some (some OutlierType.top), 7⟩]

/-- C2 counterexample: on `testBatchC2` with `top_n = bottom_n = 1`, the
record at position 6 (score 10) is flagged `top` in the output although the
forced top-1 position is 7 (score 11) and the forced bottom-1 position is 5 —
so a record that is neither among the top 1 nor the bottom 1 stays flagged,
contradicting "exactly the top_n/bottom_n records are flagged and no other
records in the output are flagged". -/
theorem C2_counterexample :
    ((identify_outliers defaultThresholds testBatchC2 none (some 1) (some 1)
        true).getD 6 default).is_outlier = some true ∧
    ((identify_outliers defaultThresholds testBatchC2 none (some 1) (some 1)
        true).getD 6 default).outlier_type = some (some OutlierType.top) ∧
    forcedTopIdx 1 (statPhase defaultThresholds none true testBatchC2) = [7] ∧
    forcedBottomIdx 1 (statPhase defaultThresholds none true testBatchC2) =
      [5] := by
  have hcs : testBatchC2.filterMap ScoreRec.composite_score =
      [0, 0, 0, 0, 0, 0, 10, 11] := rfl
  have hsort : sortAsc [(0:ℝ), 0, 0, 0, 0, 0, 10, 11] =
      [0, 0, 0, 0, 0, 0, 10, 11] := by
    norm_num [sortAsc, List.insertionSort, List.orderedInsert]
  have hlen8 : ([(0:ℝ), 0, 0, 0, 0, 0, 10, 11] : List ℝ).length = 8 := rfl
  have hfl1 : ⌊(1/4 : ℚ) * (((8:ℕ) : ℚ) - 1)⌋₊ = 1 := by
    norm_num
    rw [Nat.floor_eq_iff (by norm_num)]
    norm_num
  have hfl3 : ⌊(3/4 : ℚ) * (((8:ℕ) : ℚ) - 1)⌋₊ = 5 := by
    norm_num
    rw [Nat.floor_eq_iff (by norm_num)]
    norm_num
  have hQ1 : pandasQuantile (1/4) [(0:ℝ), 0, 0, 0, 0, 0, 10, 11] = 0 := by
    unfold pandasQuantile interpAt
    rw [hsort, hlen8, hfl1]
    norm_num [List.getD]
  have hQ3 : pandasQuantile (3/4) [(0:ℝ), 0, 0, 0, 0, 0, 10, 11] = 5/2 := by
    unfold pandasQuantile interpAt
    rw [hsort, hlen8, hfl3]
    norm_num [List.getD]
  have hUB : iqrUpperBound testBatchC2 = 15/2 := by
    unfold iqrUpperBound
    rw [hcs, hQ1, hQ3]
    norm_num
  have hLB : iqrLowerBound testBatchC2 = -5 := by
    unfold iqrLowerBound
    rw [hcs, hQ1, hQ3]
    norm_num
  have hiqr : iqrPhase testBatchC2 = c2Flagged := by
    unfold iqrPhase
    rw [hLB, hUB]
    norm_num [testBatchC2, c2Flagged, iqrFlag]
  have hstat : statPhase defaultThresholds none true testBatchC2 =
      c2Flagged := by
    unfold statPhase
    rw [if_pos ⟨rfl, by rw [hcs]; norm_num⟩]
    exact hiqr
  have hsorted : sortedNonNull c2Flagged =
      [(7, ⟨some 11, some true, some (some OutlierType.top), 7⟩),
       (6, ⟨some 10, some true, some (some OutlierType.top), 6⟩),
       (0, ⟨some 0, some false, some none, 0⟩),
       (1, ⟨some 0, some false, some none, 1⟩),
       (2, ⟨some 0, some false, some none, 2⟩),
       (3, ⟨some 0, some false, some none, 3⟩),
       (4, ⟨some 0, some false, some none, 4⟩),
       (5, ⟨some 0, some false, some none, 5⟩)] := by
    unfold sortedNonNull
    norm_num [c2Flagged, List.enum, List.enumFrom, List.insertionSort,
      List.orderedInsert, scoreKey, pyOr0]
  have htop : forcedTopIdx 1 c2Flagged = [7] := by
    unfold forcedTopIdx
    rw [hsorted]
    rfl
  have hbot : forcedBottomIdx 1 c2Flagged = [5] := by
    unfold forcedBottomIdx pyLastSlice
    rw [hsorted]
    rfl
  have hout : identify_outliers defaultThresholds testBatchC2 none (some 1)
      (some 1) true = forcedInclusion 1 1 c2Flagged := by
    rw [identify_outliers_main defaultThresholds testBatchC2 none (some 1)
      (some 1) true (by decide) (by rw [hcs]; norm_num)]
    rw [show (pyTruthyNat (some 1) || pyTruthyNat (some 1)) = true from rfl,
      if_pos rfl,
      show pyOrNat (some 1) defaultThresholds.top_n_outliers = 1 from rfl,
      show pyOrNat (some 1) defaultThresholds.bottom_n_outliers = 1 from rfl,
      hstat]
  have hforce : forcedInclusion 1 1 c2Flagged =
      [⟨some 0, some false, some none, 0⟩, ⟨some 0, some false, some none, 1⟩,
       ⟨some 0, some false, some none, 2⟩, ⟨some 0, some false, some none, 3⟩,
       ⟨some 0, some false, some none, 4⟩,
       ⟨some 0, some true, some (some OutlierType.bottom), 5⟩,
       ⟨some 10, some true, some (some OutlierType.top), 6⟩,
       ⟨some 11, some true, some (some OutlierType.top), 7⟩] := by
    unfold forcedInclusion
    rw [htop, hbot]
    norm_num [c2Flagged, List.enum, List.enumFrom, setTop, setBottom]
  refine ⟨?_, ?_, ?_, ?_⟩
  · rw [hout, hforce]
    rfl
  · rw [hout, hforce]
    rfl
  · rw [hstat]
    exact htop
  · rw [hstat]
    exact hbot

/-! ### Heap-model lemmas (for the frame/no-mutation claim) -/

theorem allocAll_spec (recs : List ScoreRec) :
    ∀ heap : List ScoreRec,
      (allocAll heap recs).1 = heap ++ recs ∧
      (allocAll heap recs).2 =
        (List.range recs.length).map (heap.length + ·) := by
  induction recs with
  | nil => intro heap; simp [allocAll]
  | cons r rs ih =>
    intro heap
    have h := ih (heap ++ [r])
    constructor
    · show (allocAll (heap ++ [r]) rs).1 = heap ++ r :: rs
      rw [h.1]
      simp
    · show heap.length :: (allocAll (heap ++ [r]) rs).2 =
        (List.range (rs.length + 1)).map (heap.length + ·)
      rw [h.2, List.range_succ_eq_map, List.map_cons, List.map_map,
        Nat.add_zero]
      congr 1
      refine List.map_congr_left fun i _ => ?_
      simp [Function.comp, List.length_append]
      omega

theorem foldl_writeAt_get? (f : ScoreRec → ScoreRec) (a : ℕ) :
    ∀ (ws : List ℕ) (h0 : List ScoreRec), (∀ x ∈ ws, x ≠ a) →
      (ws.foldl (fun h x => writeAt h x f) h0).get? a = h0.get? a
  | [], _, _ => rfl
  | w :: ws, h0, hws => by
      rw [List.foldl_cons,
        foldl_writeAt_get? f a ws _ fun x hx => hws x (List.mem_cons_of_mem _ hx)]
      unfold writeAt
      exact List.get?_set_ne _ _ (hws w (List.mem_cons_self _ _))

theorem getD_mem_of_lt {outs : List ℕ} {i : ℕ} (h : i < outs.length) :
    outs.getD i 0 ∈ outs := by
  rw [List.getD_eq_getElem outs 0 h]
  exact List.getElem_mem h

theorem forcedTopIdx_lt (t : ℕ) (results : List ScoreRec) :
    ∀ i ∈ forcedTopIdx t results, i < results.length := by
  intro i hi
  unfold forcedTopIdx at hi
  rw [List.mem_map] at hi
  obtain ⟨p, hp, rfl⟩ := hi
  exact sortedNonNull_fst_lt _ p (List.mem_of_mem_take hp)

theorem forcedBottomIdx_lt (b : ℕ) (results : List ScoreRec) :
    ∀ i ∈ forcedBottomIdx b results, i < results.length := by
  intro i hi
  unfold forcedBottomIdx pyLastSlice at hi
  rw [List.mem_map] at hi
  obtain ⟨p, hp, rfl⟩ := hi
  by_cases hb : b = 0
  · rw [if_pos hb] at hp
    exact sortedNonNull_fst_lt _ p hp
  · rw [if_neg hb] at hp
    exact sortedNonNull_fst_lt _ p (List.mem_of_mem_drop hp)

/-- Frame of the heap-level forced-inclusion step: an address outside `outs`
is never written. -/
theorem forcedInclusionHeap_get? (t b : ℕ) (heap : List ScoreRec)
    (outs : List ℕ) (a : ℕ) (ha : ∀ o ∈ outs, o ≠ a) :
    (forcedInclusionHeap t b heap outs).get? a = heap.get? a := by
  unfold forcedInclusionHeap
  have hlen : (outs.map fun o => heap.getD o default).length = outs.length :=
    List.length_map _ _
  have htop : ∀ x ∈ (forcedTopIdx t (outs.map fun o => heap.getD o default)).map
      (fun i => outs.getD i 0), x ≠ a := by
    intro x hx
    rw [List.mem_map] at hx
    obtain ⟨i, hi, rfl⟩ := hx
    have hilt := forcedTopIdx_lt t _ i hi
    rw [hlen] at hilt
    exact ha _ (getD_mem_of_lt hilt)
  have hbot : ∀ x ∈ (forcedBottomIdx b (outs.map fun o => heap.getD o default)).map
      (fun i => outs.getD i 0), x ≠ a := by
    intro x hx
    rw [List.mem_map] at hx
    obtain ⟨i, hi, rfl⟩ := hx
    have hilt := forcedBottomIdx_lt b _ i hi
    rw [hlen] at hilt
    exact ha _ (getD_mem_of_lt hilt)
  rw [foldl_writeAt_get? setBottom a _ _ hbot, foldl_writeAt_get? setTop a _ _ htop]

/-- C9: `identify_outliers` never mutates the caller's dictionaries — after
the call every input address still holds exactly the record it held before —
and when at least one input record has a non-null composite score, every
returned record lives at a fresh address (a copy), never at a caller's
address. -/
theorem C9_no_mutation_fresh_copies (cfg : Thresholds) (heap : List ScoreRec)
    (addrs : List ℕ) (z? : Option ℝ) (top_n bottom_n : Option ℕ) (u : Bool)
    (hvalid : ∀ a ∈ addrs, a < heap.length) :
    (∀ a ∈ addrs,
      (identify_outliers_heap cfg heap addrs z? top_n bottom_n u).1.get? a =
        heap.get? a) ∧
    ((∃ a ∈ addrs, (heap.getD a default).composite_score ≠ none) →
      ∀ o ∈ (identify_outliers_heap cfg heap addrs z? top_n bottom_n u).2,
        heap.length ≤ o) := by
  by_cases h0 : (addrs.map fun a => heap.getD a default).isEmpty
  · have hres : identify_outliers_heap cfg heap addrs z? top_n bottom_n u =
        (heap, []) := by
      simp only [identify_outliers_heap]
      rw [if_pos h0]
    rw [hres]
    exact ⟨fun a _ => rfl, fun _ o ho => absurd ho (by simp)⟩
  · by_cases h1 : ((addrs.map fun a => heap.getD a default).filterMap
        ScoreRec.composite_score).length = 0
    · have hres : identify_outliers_heap cfg heap addrs z? top_n bottom_n u =
          (heap, addrs) := by
        simp only [identify_outliers_heap]
        rw [if_neg h0, if_pos h1]
      rw [hres]
      refine ⟨fun a _ => rfl, fun hex => ?_⟩
      exfalso
      obtain ⟨a, ha, hne⟩ := hex
      have hmem : heap.getD a default ∈ addrs.map fun a => heap.getD a default :=
        List.mem_map_of_mem _ ha
      have hall := List.filterMap_eq_nil_iff.mp (List.length_eq_zero.mp h1)
      exact hne (hall _ hmem)
    · have hspec := allocAll_spec
        (statPhase cfg z? u (addrs.map fun a => heap.getD a default)) heap
      have hfresh : ∀ o ∈ (allocAll heap (statPhase cfg z? u
          (addrs.map fun a => heap.getD a default))).2, heap.length ≤ o := by
        intro o ho
        rw [hspec.2, List.mem_map] at ho
        obtain ⟨i, _, rfl⟩ := ho
        omega
      have hframe : ∀ a ∈ addrs, (allocAll heap (statPhase cfg z? u
          (addrs.map fun a => heap.getD a default))).1.get? a = heap.get? a := by
        intro a ha
        rw [hspec.1]
        exact List.get?_append (hvalid a ha)
      by_cases h2 : (pyTruthyNat top_n || pyTruthyNat bottom_n) = true
      · have hres : identify_outliers_heap cfg heap addrs z? top_n bottom_n u =
            (forcedInclusionHeap (pyOrNat top_n cfg.top_n_outliers)
              (pyOrNat bottom_n cfg.bottom_n_outliers)
              (allocAll heap (statPhase cfg z? u
                (addrs.map fun a => heap.getD a default))).1
              (allocAll heap (statPhase cfg z? u
                (addrs.map fun a => heap.getD a default))).2,
             (allocAll heap (statPhase cfg z? u
                (addrs.map fun a => heap.getD a default))).2) := by
          simp only [identify_outliers_heap]
          rw [if_neg h0, if_neg h1, if_pos h2]
        rw [hres]
        refine ⟨fun a ha => ?_, fun _ o ho => hfresh o ho⟩
        have hwr : ∀ o ∈ (allocAll heap (statPhase cfg z? u
            (addrs.map fun a => heap.getD a default))).2, o ≠ a := by
          intro o ho
          have := hfresh o ho
          have := hvalid a ha
          omega
        rw [forcedInclusionHeap_get? _ _ _ _ a hwr]
        exact hframe a ha
      · have hres : identify_outliers_heap cfg heap addrs z? top_n bottom_n u =
            allocAll heap (statPhase cfg z? u
              (addrs.map fun a => heap.getD a default)) := by
          simp only [identify_outliers_heap]
          rw [if_neg h0, if_neg h1, if_neg h2]
        rw [hres]
        exact ⟨hframe, fun _ => hfresh⟩

/-- C9 witness: on a concrete heap of four records, the caller's dictionary
at address 0 is unchanged after the call, and address 0 (a caller address) is
not among the returned addresses (they are all fresh). -/
theorem C9_no_mutation_fresh_copies_witness :
    (identify_outliers_heap defaultThresholds testBatch4 [0, 1, 2, 3] none
      (some 1) (some 1) true).1.get? 0 = testBatch4.get? 0 ∧
    0 ∉ (identify_outliers_heap defaultThresholds testBatch4 [0, 1, 2, 3] none
      (some 1) (some 1) true).2 := by
  have h := C9_no_mutation_fresh_copies defaultThresholds testBatch4
    [0, 1, 2, 3] none (some 1) (some 1) true (by decide)
  refine ⟨h.1 0 (by decide), fun hmem => ?_⟩
  have h4 := h.2 ⟨0, by decide, by simp [testBatch4]⟩ 0 hmem
  simp [testBatch4] at h4

end CryptoFactors

